import Mathlib

/-!
# Formal model of `src/main.py` (VoteValidator)

A shallow embedding of the batch video-metadata service in `src/main.py`.
Python values that flow through the relevant dictionaries are modelled by
`PyVal`; Python dicts by association lists (insertion order preserved, as in
Python 3.7+); Python exceptions by `Except PyErr`.  The two provider
adapters (the YouTube Data API client `yt` and the yt-dlp extractor) are
external collaborators, so they are passed in as function parameters; the
source functions `extract_video_id`, `convert_iso8601_duration_to_seconds`,
`fetch_youtube`, `fetch_ytdlp`, `preprocess`, `hash_str` and the `/fetch`
handler `update_item` are translated line by line.

Standard-library pieces (`urllib.parse.urlparse`, `parse_qs`,
`datetime.strptime`/`fromisoformat`, `hashlib.sha256`) are modelled
faithfully on the URL/date/byte shapes this program actually feeds them;
deliberate restrictions (no percent-decoding, no URL fragments, digit-only
`int()`, local timezone fixed to UTC for naive datetimes) are noted at each
definition.
-/

set_option maxRecDepth 10000

deriving instance DecidableEq for Except

/-- Python exceptions that the modelled code can raise. -/
inductive PyErr where
  | keyError (k : String)
  | valueError
  | typeError
  | attributeError
  | indexError
  | recursionError
  deriving DecidableEq, Repr

/-- The Python values stored in the dictionaries this program manipulates:
`None`, strings and integers.  (yt-dlp `duration` values are numeric; we use
`vInt` for them.) -/
inductive PyVal where
  | vNone
  | vStr (s : String)
  | vInt (n : Int)
  deriving DecidableEq, Repr

/-- A Python dict with string keys, as an insertion-ordered association list. -/
abbrev PyDict := List (String × PyVal)

/-- `d.get(k)`: first binding of key `k`, if any. -/
def alGet {κ : Type} {α : Type} [DecidableEq κ] : List (κ × α) → κ → Option α
  | [], _ => none
  | (k, v) :: rest, k' => if k = k' then some v else alGet rest k'

/-- `d[k] = v`: replace the binding in place if the key exists (keeping its
position, as Python dicts do), otherwise append it at the end. -/
def alSet {κ : Type} {α : Type} [DecidableEq κ] : List (κ × α) → κ → α → List (κ × α)
  | [], k', v' => [(k', v')]
  | (k, v) :: rest, k', v' =>
    if k = k' then (k, v') :: rest else (k, v) :: alSet rest k' v'

/-- `d.pop(k)`: drop the binding of key `k` (first occurrence). -/
def alRemove {κ : Type} {α : Type} [DecidableEq κ] : List (κ × α) → κ → List (κ × α)
  | [], _ => []
  | (k, v) :: rest, k' => if k = k' then rest else (k, v) :: alRemove rest k'

/-- Python `str.split(sep)` for a one-character separator, over char lists.
Always returns at least one part; `n` separators yield `n + 1` parts. -/
def pySplitChar (sep : Char) : List Char → List (List Char)
  | [] => [[]]
  | c :: rest =>
    match pySplitChar sep rest with
    | [] => [[]]
    | cur :: parts => if c = sep then [] :: cur :: parts else (c :: cur) :: parts

/-- Numeric value of a list of decimal digit characters. -/
def digitsVal (ds : List Char) : Nat :=
  ds.foldl (fun a c => 10 * a + (c.toNat - 48)) 0

/-- Python `int(s)` restricted to an optional minus sign followed by decimal
digits; every other shape raises `ValueError`.  (Python additionally strips
whitespace and accepts `+`/underscores; none of those shapes reach `int()`
in this program.) -/
def pyInt (cs : List Char) : Except PyErr Int :=
  if !cs.isEmpty && cs.all Char.isDigit then .ok (digitsVal cs)
  else
    match cs with
    | '-' :: ds =>
      if !ds.isEmpty && ds.all Char.isDigit then .ok (-(digitsVal ds : Int))
      else .error .valueError
    | _ => .error .valueError

/-! ## `urllib.parse`: `urlparse`, `parse_qs`, `ParseResult.geturl` -/

/-- The components of `urllib.parse.ParseResult` used by the program
(params and fragment are never consulted and are not modelled). -/
structure ParseResult where
  scheme : String
  netloc : String
  path : String
  query : String
  deriving DecidableEq, Repr

/-- Split a char list at the first occurrence of `"://"`, returning the text
before it and after it. -/
def findSchemeSplit : List Char → Option (List Char × List Char)
  | [] => none
  | ':' :: '/' :: '/' :: rest => some ([], rest)
  | c :: rest =>
    match findSchemeSplit rest with
    | none => none
    | some (a, b) => some (c :: a, b)

/-- The netloc is everything up to the first `/` or `?`. -/
def splitNetloc (cs : List Char) : List Char × List Char :=
  (cs.takeWhile (fun c => !(c == '/' || c == '?')),
   cs.dropWhile (fun c => !(c == '/' || c == '?')))

/-- Split the remainder into path (before the first `?`) and query (after it). -/
def splitPathQuery (cs : List Char) : List Char × List Char :=
  (cs.takeWhile (fun c => c != '?'), (cs.dropWhile (fun c => c != '?')).drop 1)

/-- `urllib.parse.urlparse`, restricted to the URL shapes this service sees:
an optional `scheme://` marker, then netloc up to `/` or `?`, then path and
`?query`.  Fragments (`#`) and scheme validation/lowercasing are not
modelled (no input of the claims contains them). -/
def urlparse (s : String) : ParseResult :=
  match findSchemeSplit s.toList with
  | some (sch, rest) =>
    let (nl, after) := splitNetloc rest
    let (p, q) := splitPathQuery after
    ⟨String.mk sch, String.mk nl, String.mk p, String.mk q⟩
  | none =>
    match s.toList with
    | '/' :: '/' :: rest =>
      let (nl, after) := splitNetloc rest
      let (p, q) := splitPathQuery after
      ⟨"", String.mk nl, String.mk p, String.mk q⟩
    | cs =>
      let (p, q) := splitPathQuery cs
      ⟨"", "", String.mk p, String.mk q⟩

/-- `ParseResult.geturl()` (via `urlunparse`): `scheme:` when a scheme is
present, `//netloc` when a netloc is present, then path and `?query` when
the query is nonempty. -/
def geturl (uc : ParseResult) : String :=
  (if uc.scheme ≠ "" then uc.scheme ++ ":" else "")
    ++ (if uc.netloc ≠ "" then "//" ++ uc.netloc else "")
    ++ uc.path
    ++ (if uc.query ≠ "" then "?" ++ uc.query else "")

/-- Append a value to the list of values already collected for a query key. -/
def qsInsert (acc : List (String × List String)) (k v : String) :
    List (String × List String) :=
  match alGet acc k with
  | some vs => alSet acc k (vs ++ [v])
  | none => acc ++ [(k, [v])]

/-- `urllib.parse.parse_qs` with default flags: split on `&`, split each part
at the first `=`, drop parts with no `=` and parts with an empty value
(`keep_blank_values=False`, `strict_parsing=False`).  Percent-decoding and
`+`-to-space are not modelled (no claim input uses them).  Every value list
in the result is nonempty by construction. -/
def parse_qs (q : String) : List (String × List String) :=
  (pySplitChar '&' q.toList).foldl
    (fun acc part =>
      let name := part.takeWhile (fun c => c != '=')
      match part.dropWhile (fun c => c != '=') with
      | [] => acc
      | _ :: value =>
        if value.isEmpty then acc
        else qsInsert acc (String.mk name) (String.mk value))
    []

/-! ## `extract_video_id` (src/main.py lines 24-46) -/

/-- The character class `[a-zA-Z0-9_-]` of the two path regexes. -/
def isIdChar (c : Char) : Bool := c.isAlphanum || c == '_' || c == '-'

/-- `extract_video_id(url_components)`: on the exact path `/watch` read
`parse_qs(query)["v"][0]` (a `KeyError` when `v` is absent or blank); on
other paths try the livestream pattern `^/live/([a-zA-Z0-9_-]+)` and then
the shortened pattern `^/([a-zA-Z0-9_-]+)`; `None` when nothing matches. -/
def extract_video_id (uc : ParseResult) : Except PyErr (Option String) :=
  if uc.path = "/watch" then
    match alGet (parse_qs uc.query) "v" with
    | none => .error (.keyError "v")
    | some [] => .error .indexError
    | some (v0 :: _) => .ok (some v0)
  else
    match uc.path.toList with
    | '/' :: 'l' :: 'i' :: 'v' :: 'e' :: '/' :: rest =>
      match rest.takeWhile isIdChar with
      | [] =>
        -- the livestream regex fails; the shortened regex then matches
        -- the literal segment "live" (greedy `[a-zA-Z0-9_-]+` from `/`)
        .ok (some "live")
      | ds => .ok (some (String.mk ds))
    | '/' :: rest =>
      match rest.takeWhile isIdChar with
      | [] => .ok none
      | ds => .ok (some (String.mk ds))
    | _ => .ok none

/-! ## `convert_iso8601_duration_to_seconds` (src/main.py lines 48-73) -/

/-- Python tuple unpacking `a, b = s.split(sep)`: succeeds exactly when the
split yields two parts, otherwise `ValueError`. -/
def splitUnpack2 (sep : Char) (cs : List Char) : Except PyErr (List Char × List Char) :=
  match pySplitChar sep cs with
  | [a, b] => .ok (a, b)
  | _ => .error .valueError

/-- `convert_iso8601_duration_to_seconds(iso8601_duration)`: strip a leading
`PT`, then peel `<hours>H`, `<minutes>M` by in-place splits and read the
seconds by deleting every `S`; each missing segment contributes zero. -/
def convert_iso8601_duration_to_seconds (iso8601_duration : String) : Except PyErr Int := do
  let cs1 :=
    match iso8601_duration.toList with
    | 'P' :: 'T' :: rest => rest
    | cs => cs
  let (hours, cs2) ←
    if cs1.contains 'H' then do
      let (hp, rest) ← splitUnpack2 'H' cs1
      let h ← pyInt hp
      pure (h, rest)
    else pure ((0 : Int), cs1)
  let (minutes, cs3) ←
    if cs2.contains 'M' then do
      let (mp, rest) ← splitUnpack2 'M' cs2
      let m ← pyInt mp
      pure (m, rest)
    else pure ((0 : Int), cs2)
  let seconds ←
    if cs3.contains 'S' then pyInt (cs3.filter (fun c => c != 'S'))
    else pure (0 : Int)
  pure (hours * 3600 + minutes * 60 + seconds)

example : convert_iso8601_duration_to_seconds "PT1H2M3S" = .ok 3723 := by decide
example : convert_iso8601_duration_to_seconds "PT45S" = .ok 45 := by decide
example : convert_iso8601_duration_to_seconds "PT2H" = .ok 7200 := by decide
example : convert_iso8601_duration_to_seconds "PT" = .ok 0 := by decide
example : urlparse "https://www.youtube.com/watch?v=9RT4lfvVFhA" =
    ⟨"https", "www.youtube.com", "/watch", "v=9RT4lfvVFhA"⟩ := by decide
example : extract_video_id (urlparse "https://youtu.be/9RT4lfvVFhA") =
    .ok (some "9RT4lfvVFhA") := by decide
example : extract_video_id (urlparse "https://www.youtube.com/watch?v=abc") =
    .ok (some "abc") := by decide
example : extract_video_id (urlparse "https://www.youtube.com/watch") =
    .error (.keyError "v") := by decide
example : extract_video_id (urlparse "https://www.youtube.com/live/Q8k4UTf8jiI") =
    .ok (some "Q8k4UTf8jiI") := by decide

/-! ## `hash_str` (src/main.py lines 228-231): SHA-256 over the UTF-8 bytes

A full executable model of `hashlib.sha256`.  Machine words are `Nat`s kept
below `2 ^ 32`; the bitwise operations are defined by 32-step binary
recursion so that everything reduces by plain arithmetic. -/

/-- 32-bit exclusive or (both operands stay below `2 ^ 32` throughout). -/
def xor32 (a b : Nat) : Nat := Nat.xor a b

/-- 32-bit and. -/
def and32 (a b : Nat) : Nat := Nat.land a b

/-- 32-bit complement. -/
def not32 (a : Nat) : Nat := xor32 a (2 ^ 32 - 1)

/-- Addition modulo `2 ^ 32`. -/
def add32 (a b : Nat) : Nat := (a + b) % 2 ^ 32

/-- Rotate a 32-bit word right by `n`. -/
def rotr32 (n a : Nat) : Nat := (a / 2 ^ n + a % 2 ^ n * 2 ^ (32 - n)) % 2 ^ 32

/-- Logical shift right. -/
def shr32 (n a : Nat) : Nat := a / 2 ^ n

/-- UTF-8 encoding of one character (`str.encode`). -/
def utf8EncodeChar (c : Char) : List Nat :=
  let n := c.toNat
  if n < 0x80 then [n]
  else if n < 0x800 then [0xC0 + n / 64, 0x80 + n % 64]
  else if n < 0x10000 then [0xE0 + n / 4096, 0x80 + n / 64 % 64, 0x80 + n % 64]
  else [0xF0 + n / 262144, 0x80 + n / 4096 % 64, 0x80 + n / 64 % 64, 0x80 + n % 64]

/-- `string.encode()`: the UTF-8 bytes of a string. -/
def utf8Encode (s : String) : List Nat :=
  s.toList.foldr (fun c acc => utf8EncodeChar c ++ acc) []

/-- The eight working variables of the SHA-256 compression function. -/
structure ShaState where
  a : Nat
  b : Nat
  c : Nat
  d : Nat
  e : Nat
  f : Nat
  g : Nat
  h : Nat
  deriving DecidableEq, Repr

/-- SHA-256 initial hash value. -/
def shaInit : ShaState :=
  ⟨1779033703, 3144134277, 1013904242, 2773480762,
   1359893119, 2600822924, 528734635, 1541459225⟩

/-- SHA-256 round constants. -/
def shaK : List Nat :=
  [1116352408, 1899447441, 3049323471, 3921009573, 961987163,
   1508970993, 2453635748, 2870763221, 3624381080, 310598401,
   607225278, 1426881987, 1925078388, 2162078206, 2614888103,
   3248222580, 3835390401, 4022224774, 264347078, 604807628,
   770255983, 1249150122, 1555081692, 1996064986, 2554220882,
   2821834349, 2952996808, 3210313671, 3336571891, 3584528711,
   113926993, 338241895, 666307205, 773529912, 1294757372,
   1396182291, 1695183700, 1986661051, 2177026350, 2456956037,
   2730485921, 2820302411, 3259730800, 3345764771, 3516065817,
   3600352804, 4094571909, 275423344, 430227734, 506948616,
   659060556, 883997877, 958139571, 1322822218, 1537002063,
   1747873779, 1955562222, 2024104815, 2227730452, 2361852424,
   2428436474, 2756734187, 3204031479, 3329325298]

/-- Assemble a big-endian 32-bit word from four bytes. -/
def word4 (b0 b1 b2 b3 : Nat) : Nat := ((b0 * 256 + b1) * 256 + b2) * 256 + b3

/-- Group a byte list into big-endian 32-bit words. -/
def toWords : List Nat → List Nat
  | b0 :: b1 :: b2 :: b3 :: rest => word4 b0 b1 b2 b3 :: toWords rest
  | _ => []

/-- Extend the 16 words of a chunk by `k` further schedule words. -/
def extendW : Nat → Array Nat → Array Nat
  | 0, w => w
  | k + 1, w =>
    let i := w.size
    let x := w.getD (i - 15) 0
    let y := w.getD (i - 2) 0
    let s0 := xor32 (xor32 (rotr32 7 x) (rotr32 18 x)) (shr32 3 x)
    let s1 := xor32 (xor32 (rotr32 17 y) (rotr32 19 y)) (shr32 10 y)
    extendW k (w.push (add32 (add32 (w.getD (i - 16) 0) s0) (add32 (w.getD (i - 7) 0) s1)))

/-- One SHA-256 round, with the round constant and schedule word paired up. -/
def shaRound (st : ShaState) (kw : Nat × Nat) : ShaState :=
  let s1 := xor32 (xor32 (rotr32 6 st.e) (rotr32 11 st.e)) (rotr32 25 st.e)
  let ch := xor32 (and32 st.e st.f) (and32 (not32 st.e) st.g)
  let temp1 := add32 (add32 (add32 st.h s1) (add32 ch kw.1)) kw.2
  let s0 := xor32 (xor32 (rotr32 2 st.a) (rotr32 13 st.a)) (rotr32 22 st.a)
  let maj := xor32 (xor32 (and32 st.a st.b) (and32 st.a st.c)) (and32 st.b st.c)
  let temp2 := add32 s0 maj
  ⟨add32 temp1 temp2, st.a, st.b, st.c, add32 st.d temp1, st.e, st.f, st.g⟩

/-- Compress one 64-byte chunk into the running state. -/
def shaCompress (st : ShaState) (chunk : List Nat) : ShaState :=
  let w := extendW 48 (Array.mk (toWords chunk))
  let t := (shaK.zip w.toList).foldl shaRound st
  ⟨add32 st.a t.a, add32 st.b t.b, add32 st.c t.c, add32 st.d t.d,
   add32 st.e t.e, add32 st.f t.f, add32 st.g t.g, add32 st.h t.h⟩

/-- The 8-byte big-endian encoding of the message bit length. -/
def lenBytes8 (n : Nat) : List Nat :=
  [n / 2 ^ 56 % 256, n / 2 ^ 48 % 256, n / 2 ^ 40 % 256, n / 2 ^ 32 % 256,
   n / 2 ^ 24 % 256, n / 2 ^ 16 % 256, n / 2 ^ 8 % 256, n % 256]

/-- SHA-256 padding: `0x80`, zeros to 56 mod 64, then the bit length. -/
def shaPad (msg : List Nat) : List Nat :=
  msg ++ [0x80] ++ List.replicate ((119 - msg.length % 64) % 64) 0
    ++ lenBytes8 (msg.length * 8)

/-- Cut a list into 64-byte chunks, `k` of them. -/
def chunksGo : Nat → List Nat → List (List Nat)
  | 0, _ => []
  | k + 1, l => l.take 64 :: chunksGo k (l.drop 64)

/-- The four big-endian bytes of a 32-bit word. -/
def wordBytes (w : Nat) : List Nat :=
  [w / 2 ^ 24 % 256, w / 2 ^ 16 % 256, w / 2 ^ 8 % 256, w % 256]

/-- The 32 digest bytes of a message. -/
def sha256Bytes (msg : List Nat) : List Nat :=
  let padded := shaPad msg
  let fin := (chunksGo (padded.length / 64) padded).foldl shaCompress shaInit
  wordBytes fin.a ++ wordBytes fin.b ++ wordBytes fin.c ++ wordBytes fin.d
    ++ wordBytes fin.e ++ wordBytes fin.f ++ wordBytes fin.g ++ wordBytes fin.h

/-- The lowercase hex digit of a nibble. -/
def nibbleChar (n : Nat) : Char :=
  if n < 10 then Char.ofNat (48 + n) else Char.ofNat (87 + n)

/-- The two hex characters of a byte. -/
def byteHex (b : Nat) : List Char := [nibbleChar (b / 16 % 16), nibbleChar (b % 16)]

/-- `hash_str(string)`: the first 5 characters of
`sha256(string.encode()).hexdigest()`. -/
def hash_str (s : String) : String :=
  String.mk (((sha256Bytes (utf8Encode s)).foldr (fun b acc => byteHex b ++ acc) []).take 5)

/-! ## Calendar dates and timestamps

`datetime.strptime(s, "%Y%m%d")` followed by `pytz.utc.localize(...).timestamp()`
produces exactly `86400 *` (days since the Unix epoch) — a float whose value
is that integer; we model the value as an `Int`.  `datetime.fromisoformat`
followed by `.timestamp()` and `int(...)` is modelled for the RFC-3339 shapes
the YouTube API emits (`YYYY-MM-DDTHH:MM:SS`, optional fractional seconds,
optional `Z` or `±HH:MM` offset; Python 3.11+ accepts `Z`).  A naive
datetime's `timestamp()` uses the process's local timezone; the model fixes
the service's local timezone to UTC. -/

/-- Gregorian leap year. -/
def isLeap (y : Nat) : Bool := y % 4 == 0 && (y % 100 != 0 || y % 400 == 0)

/-- Days in a month (1-12). -/
def daysInMonth (y m : Nat) : Nat :=
  match m with
  | 1 => 31 | 2 => if isLeap y then 29 else 28 | 3 => 31 | 4 => 30
  | 5 => 31 | 6 => 30 | 7 => 31 | 8 => 31
  | 9 => 30 | 10 => 31 | 11 => 30 | 12 => 31
  | _ => 0

/-- Days from 1970-01-01 to `y-m-d` (civil-from-days algorithm); negative
for earlier dates.  Valid for `y ≥ 1`, which the parsers guarantee. -/
def daysSinceEpoch (y m d : Nat) : Int :=
  let yy := if m ≤ 2 then y - 1 else y
  let era := yy / 400
  let yoe := yy % 400
  let mp := (m + 9) % 12
  let doy := (153 * mp + 2) / 5 + d - 1
  let doe := yoe * 365 + yoe / 4 - yoe / 100 + doy
  (era * 146097 + doe : Int) - 719468

/-- Read `k` decimal digits as a number, failing on non-digits. -/
def readDigits (cs : List Char) : Option Nat :=
  if !cs.isEmpty && cs.all Char.isDigit then some (digitsVal cs) else none

/-- `int(pytz.utc.localize(datetime.strptime(s, "%Y%m%d")).timestamp())`
without the outer `int` — the timestamp itself, which is a whole number of
seconds (UTC midnight).  Malformed input raises `ValueError`. -/
def strptimeYmd (s : String) : Except PyErr Int :=
  match s.toList with
  | [y1, y2, y3, y4, m1, m2, d1, d2] =>
    match readDigits [y1, y2, y3, y4], readDigits [m1, m2], readDigits [d1, d2] with
    | some y, some m, some d =>
      if 1 ≤ y ∧ 1 ≤ m ∧ m ≤ 12 ∧ 1 ≤ d ∧ d ≤ daysInMonth y m then
        .ok (daysSinceEpoch y m d * 86400)
      else .error .valueError
    | _, _, _ => .error .valueError
  | _ => .error .valueError

/-- Parse the timezone suffix of an ISO timestamp: `""` (naive, treated as
UTC under the model's local-timezone-is-UTC assumption), `Z`, or `±HH:MM`.
Returns the offset in minutes. -/
def parseIsoOffset (cs : List Char) : Except PyErr Int :=
  match cs with
  | [] => .ok 0
  | ['Z'] => .ok 0
  | [sgn, h1, h2, ':', m1, m2] =>
    match readDigits [h1, h2], readDigits [m1, m2] with
    | some hh, some mm =>
      if sgn = '+' then .ok (hh * 60 + mm)
      else if sgn = '-' then .ok (-(hh * 60 + mm : Int))
      else .error .valueError
    | _, _ => .error .valueError
  | _ => .error .valueError

/-- Split off a fractional-seconds field `.d+` if present; returns whether
the fraction is positive together with the rest. -/
def parseIsoFraction (cs : List Char) : Except PyErr (Bool × List Char) :=
  match cs with
  | '.' :: rest =>
    let ds := rest.takeWhile Char.isDigit
    if ds.isEmpty then .error .valueError
    else .ok (digitsVal ds ≠ 0, rest.dropWhile Char.isDigit)
  | _ => .ok (false, cs)

/-- `int(datetime.fromisoformat(s).timestamp())` for the timestamp shapes
described above; `int()` truncates toward zero. -/
def parseIsoTimestamp (s : String) : Except PyErr Int :=
  match s.toList with
  | y1 :: y2 :: y3 :: y4 :: '-' :: m1 :: m2 :: '-' :: d1 :: d2 :: rest =>
    match readDigits [y1, y2, y3, y4], readDigits [m1, m2], readDigits [d1, d2] with
    | some y, some m, some d =>
      if ¬(1 ≤ y ∧ 1 ≤ m ∧ m ≤ 12 ∧ 1 ≤ d ∧ d ≤ daysInMonth y m) then .error .valueError
      else
        match rest with
        | [] => .ok (daysSinceEpoch y m d * 86400)
        | sep :: h1 :: h2 :: ':' :: mi1 :: mi2 :: ':' :: s1 :: s2 :: rest2 =>
          if ¬(sep = 'T' ∨ sep = ' ') then .error .valueError
          else
            match readDigits [h1, h2], readDigits [mi1, mi2], readDigits [s1, s2] with
            | some hh, some mi, some ss =>
              if ¬(hh ≤ 23 ∧ mi ≤ 59 ∧ ss ≤ 59) then .error .valueError
              else
                match parseIsoFraction rest2 with
                | .error e => .error e
                | .ok (fracPos, rest3) =>
                  match parseIsoOffset rest3 with
                  | .error e => .error e
                  | .ok off =>
                    let base := daysSinceEpoch y m d * 86400
                      + (hh : Int) * 3600 + (mi : Int) * 60 + (ss : Int) - off * 60
                    -- int() truncates toward zero: a negative timestamp with a
                    -- positive fraction rounds up by one
                    .ok (if base < 0 ∧ fracPos then base + 1 else base)
            | _, _, _ => .error .valueError
        | _ => .error .valueError
    | _, _, _ => .error .valueError
  | _ => .error .valueError

/-! ## Normalized records, adapters, caches -/

/-- The success dictionary both fetchers build: keys `title`, `uploader`,
`upload_date`, `duration` (lines 98-103 and 169-174 of src/main.py).
`title`, `uploader` and `duration` hold whatever `response.get` returned
(possibly `None`); the timestamp value is modelled as its integer value. -/
structure Record where
  title : PyVal
  uploader : PyVal
  upload_date : Int
  duration : PyVal
  deriving DecidableEq, Repr

/-- A per-URL result of the batch endpoint: a success record or the
structured rejection object `{"Invalid": msg}`. -/
inductive FetchResult where
  | record (r : Record)
  | invalid (msg : String)
  deriving DecidableEq, Repr

/-- The snippet part of a YouTube API item. -/
structure YtSnippet where
  title : String
  channelTitle : String
  publishedAt : String
  deriving DecidableEq, Repr

/-- One item of a YouTube API videos().list response: the consumed snippet
fields and `contentDetails.duration`. -/
structure YtItem where
  snippet : YtSnippet
  duration : String
  deriving DecidableEq, Repr

/-- A YouTube API videos().list response (`response["items"]`). -/
structure YtResponse where
  items : List YtItem
  deriving DecidableEq, Repr

/-- What `ydl.extract_info` hands back: either a plain info dict, or a
playlist-style result carrying an `entries` list (the code then takes
`entries[0]`). -/
inductive YdlInfo where
  | flat (d : PyDict)
  | playlist (entries : List PyDict)

/-- The process-wide mutable state: `yt_cache` (line 22) and `ytdlp_cache`
(line 121), the latter keyed first by accepted domain and then by the
display id (a Python value used as dict key). -/
structure St where
  yt_cache : List (String × Record)
  ytdlp_cache : List (String × List (PyVal × Record))
  deriving DecidableEq, Repr

/-- The fixed allow-list `accepted_domains` (src/main.py lines 108-119). -/
def accepted_domains : List String :=
  ["dailymotion.com", "pony.tube", "vimeo.com", "bilibili.com",
   "thishorsie.rocks", "tiktok.com", "twitter.com", "x.com",
   "odysee.com", "newgrounds.com"]

/-- The initial state: empty `yt_cache`, and one empty inner dict per
accepted domain (`ytdlp_cache = {domain: {} for domain in accepted_domains}`). -/
def initSt : St :=
  ⟨[], accepted_domains.map (fun d => (d, []))⟩

/-! ## `fetch_youtube` (src/main.py lines 75-106) -/

/-- `fetch_youtube(url_components)`, with the YouTube API client `api`
passed in as the adapter (`yt.videos().list(...).execute()` is `api vid`;
the API response is assumed well-shaped, as guaranteed by the client
library).  Mirrors the source line by line: extract the id, reject when it
is falsy, serve from `yt_cache`, otherwise call the API, reject when
`items` is empty, and build, cache and return the record. -/
def fetch_youtube (api : String → YtResponse) (st : St) (uc : ParseResult) :
    Except PyErr (FetchResult × St) :=
  match extract_video_id uc with
  | .error e => .error e
  | .ok none => .ok (.invalid "No video id present", st)
  | .ok (some vid) =>
    if vid = "" then .ok (.invalid "No video id present", st)
    else
      match alGet st.yt_cache vid with
      | some r => .ok (.record r, st)  -- a cached record dict is always truthy
      | none =>
        match (api vid).items with
        | [] => .ok (.invalid "Url doesn't point to a video", st)
        | item :: _ =>
          match parseIsoTimestamp item.snippet.publishedAt with
          | .error e => .error e
          | .ok ts =>
            match convert_iso8601_duration_to_seconds item.duration with
            | .error e => .error e
            | .ok dur =>
              let r : Record :=
                ⟨.vStr item.snippet.title, .vStr item.snippet.channelTitle, ts, .vInt dur⟩
              .ok (.record r, { st with yt_cache := alSet st.yt_cache vid r })

/-! ## `preprocess` (src/main.py lines 183-223) -/

/-- One value of the `changes` dict: `None`, a string (a different response
key to copy from — or, under the key `"url"`, the rewritten URL itself), or
a lambda over the response dict. -/
inductive ChangeVal where
  | cNone
  | cStr (s : String)
  | cFun (f : PyDict → Except PyErr PyVal)

/-- The `changes` dict built by `preprocess`. -/
abbrev Changes := List (String × ChangeVal)

/-- Python truthiness of a `changes` value (`None` and `""` are falsy). -/
def cvTruthy : ChangeVal → Bool
  | .cNone => false
  | .cStr s => !s.isEmpty
  | .cFun _ => true

/-- Python `f"...{x}..."` formatting of a value obtained by `.get`:
a missing key or `None` prints as `None`. -/
def pyFmt : Option PyVal → String
  | none => "None"
  | some .vNone => "None"
  | some (.vStr s) => s
  | some (.vInt n) => toString n

/-- The `twitter` title lambda (lines 197-199):
`f"X post by {vid_data.get('uploader_id')} ({hash_str(vid_data.get('title'))})"`.
`hash_str` calls `.encode()` on its argument, so a missing, `None` or
non-string `title` raises `AttributeError`. -/
def twitterTitle (d : PyDict) : Except PyErr PyVal :=
  match alGet d "title" with
  | some (.vStr t) =>
    .ok (.vStr ("X post by " ++ pyFmt (alGet d "uploader_id") ++ " (" ++ hash_str t ++ ")"))
  | _ => .error .attributeError

/-- The `tiktok` title lambda (lines 216-218):
`f"Tiktok video by {vid_data.get('uploader')} ({hash_str(vid_data.get('title'))})"`. -/
def tiktokTitle (d : PyDict) : Except PyErr PyVal :=
  match alGet d "title" with
  | some (.vStr t) =>
    .ok (.vStr ("Tiktok video by " ++ pyFmt (alGet d "uploader") ++ " (" ++ hash_str t ++ ")"))
  | _ => .error .attributeError

/-- Python `str.rfind(c)`: index of the last occurrence, `-1` if absent. -/
def pyRfind (c : Char) (s : String) : Int :=
  match (s.toList.reverse).findIdx? (fun x => x = c) with
  | none => -1
  | some ri => (s.toList.length : Int) - 1 - ri

/-- Python `s[0:i]` for `i ≥ -len` (the shapes `rfind` produces). -/
def pySlice0 (s : String) (i : Int) : String :=
  if i ≥ 0 then String.mk (s.toList.take i.toNat)
  else String.mk (s.toList.take (s.toList.length - (-i).toNat))

/-- Python `s[i:]` for `i ≥ 0`. -/
def pySliceFrom (s : String) (i : Int) : String :=
  String.mk (s.toList.drop i.toNat)

/-- Python `s.endswith(t)`. -/
def pyEndsWith (suffix target : List Char) : Bool :=
  List.isSuffixOf suffix target

/-- Lines 184-185: `site = url_components.netloc.split(".")`, then
`site = site[0] if len(site) == 2 else site[1]` (an `IndexError` when the
netloc has no dot). -/
def siteOf (netloc : String) : Except PyErr String :=
  let parts := (pySplitChar '.' netloc.toList).map String.mk
  match (if parts.length = 2 then some (parts.headD "")
         else parts.drop 1 |>.head?) with
  | none => .error .indexError
  | some site => .ok site

/-- `preprocess(url_components)` with explicit recursion fuel: the only
recursive call is the `x` case re-entering on the rewritten `twitter.com`
URL (which cannot recurse again); exhausted fuel models Python's
`RecursionError`. -/
def preprocessAux : Nat → ParseResult → Except PyErr Changes
  | 0, _ => .error .recursionError
  | f + 1, uc =>
    match siteOf uc.netloc with
    | .error e => .error e
    | .ok site =>
      match site with
      | "x" =>
        let new_url := "https://twitter.com" ++ uc.path
        match preprocessAux f (urlparse new_url) with
        | .error e => .error e
        | .ok changes => .ok (alSet changes "url" (.cStr new_url))
      | "twitter" =>
        let changes : Changes :=
          [("channel", .cStr "uploader_id"), ("title", .cFun twitterTitle)]
        let url := geturl uc
        let rf := pyRfind '/' url
        if pyEndsWith "/video".toList (pySlice0 url rf).toList then
          match pyInt (pySliceFrom url (rf + 1)).toList with
          | .error e => .error e
          | .ok k => if k ≠ 1 then .ok (alSet changes "duration" .cNone) else .ok changes
        else .ok changes
      | "newgrounds" => .ok [("channel", .cStr "uploader")]
      | "tiktok" =>
        .ok [("channel", .cStr "uploader"), ("title", .cFun tiktokTitle)]
      | "bilibili" => .ok [("channel", .cStr "uploader")]
      | _ => .ok []

/-- `preprocess` with enough fuel for the single `x → twitter` re-entry. -/
def preprocess (uc : ParseResult) : Except PyErr Changes :=
  preprocessAux 2 uc

/-! ## `fetch_ytdlp` (src/main.py lines 123-177) -/

/-- The netloc normalization (lines 126-127): when the netloc contains at
least two dots (`find(".") != rfind(".")`), strip everything through the
first dot. -/
def normalizeNetloc (netloc : String) : String :=
  if 2 ≤ netloc.toList.count '.' then
    String.mk ((netloc.toList.dropWhile (fun c => c != '.')).drop 1)
  else netloc

/-- The cache key (line 132):
`url_components.path.split("?")[0].rstrip("/").split("/")[-1]`. -/
def videoIdOf (path : String) : String :=
  let s1 := (pySplitChar '?' path.toList).headD []
  let s2 := (s1.reverse.dropWhile (fun c => c == '/')).reverse
  String.mk ((pySplitChar '/' s2).getLastD [])

/-- The correction loop (lines 157-164): `None` stores `None`, a string key
copies `response.get(key)` (which may be `None`), a lambda stores its result. -/
def applyChanges : Changes → PyDict → Except PyErr PyDict
  | [], d => .ok d
  | (k, .cNone) :: rest, d => applyChanges rest (alSet d k .vNone)
  | (k, .cStr other) :: rest, d =>
    applyChanges rest (alSet d k ((alGet d other).getD .vNone))
  | (k, .cFun f) :: rest, d =>
    match f d with
    | .error e => .error e
    | .ok v => applyChanges rest (alSet d k v)

/-- The URL override (lines 141-142): when the changes dict is nonempty and
holds a truthy `"url"` value, pop it and fetch that URL instead.  The value
is a string by construction; any other truthy value would crash inside the
extractor and is modelled as a `TypeError`. -/
def popUrl (url0 : String) (changes : Changes) : Except PyErr (String × Changes) :=
  if !changes.isEmpty && (match alGet changes "url" with
                          | some v => cvTruthy v
                          | none => false) then
    match alGet changes "url" with
    | some (.cStr u) => .ok (u, alRemove changes "url")
    | _ => .error .typeError
  else .ok (url0, changes)

/-- Lines 150-177 of `fetch_ytdlp`, after the extractor returned and
`entries[0]` was taken: apply the corrections, parse `upload_date` (a
`TypeError` when missing, as `strptime(None, ...)`), build the record and
store it under `response["webpage_url_domain"]` / `response["display_id"]`
(`KeyError` when either is missing or the domain is not an outer cache
key). -/
def finishResponse (st : St) (changes : Changes) (response0 : PyDict) :
    Except PyErr (FetchResult × St) :=
  match applyChanges changes response0 with
  | .error e => .error e
  | .ok response =>
    match (match alGet response "upload_date" with
           | some (.vStr s) => strptimeYmd s
           | _ => Except.error PyErr.typeError) with
    | .error e => .error e
    | .ok ts =>
      let r : Record :=
        ⟨(alGet response "title").getD .vNone,
         (alGet response "channel").getD .vNone, ts,
         (alGet response "duration").getD .vNone⟩
      match alGet response "webpage_url_domain" with
      | none => .error (.keyError "webpage_url_domain")
      | some (.vStr dom) =>
        match alGet st.ytdlp_cache dom with
        | none => .error (.keyError dom)
        | some inner2 =>
          match alGet response "display_id" with
          | none => .error (.keyError "display_id")
          | some did =>
            let st' : St :=
              { st with
                ytdlp_cache := alSet st.ytdlp_cache dom (alSet inner2 did r) }
            .ok (.record r, st')
      | some wd => .error (.keyError (pyFmt (some wd)))

/-- `fetch_ytdlp(url_components)` with the yt-dlp extractor passed in as the
adapter (`ydl.extract_info(url, download=False)` is `ydl url`; a
`DownloadError` raised by it is the `.error` case and is caught).  Mirrors
the source: normalize the netloc, reject unaccepted domains, serve from
`ytdlp_cache`, otherwise preprocess, fetch, take `entries[0]` for
playlists, apply the corrections, parse `upload_date` (a `TypeError` when
missing, as `strptime(None, ...)`), build the record and store it under
`response["webpage_url_domain"]` / `response["display_id"]` (`KeyError`
when either is missing or the domain is not an outer cache key). -/
def fetch_ytdlp (ydl : String → Except Unit YdlInfo) (st : St) (uc : ParseResult) :
    Except PyErr (FetchResult × St) :=
  let netloc := normalizeNetloc uc.netloc
  if netloc ∉ accepted_domains then .ok (.invalid "Url not from an accepted domain", st)
  else
    match alGet st.ytdlp_cache netloc with
    | none => .error (.keyError netloc)
    | some inner =>
      let video_id := videoIdOf uc.path
      match alGet inner (.vStr video_id) with
      | some r => .ok (.record r, st)  -- a cached record dict is always truthy
      | none =>
        match preprocess uc with
        | .error e => .error e
        | .ok changes0 =>
          match popUrl (geturl uc) changes0 with
          | .error e => .error e
          | .ok (url, changes) =>
            match ydl url with
            | .error _ => .ok (.invalid "Url doesn't point to a video", st)
            | .ok info =>
              match (match info with
                     | .playlist [] => Except.error PyErr.indexError
                     | .playlist (d :: _) => Except.ok d
                     | .flat d => Except.ok d) with
              | .error e => .error e
              | .ok response0 => finishResponse st changes response0

/-! ## The batch endpoint `update_item` (src/main.py lines 234-241) -/

/-- The YouTube-family allow-list (line 234). -/
def youtube_domains : List String :=
  ["m.youtube.com", "www.youtube.com", "youtube.com", "youtu.be"]

/-- The `/fetch` handler: parse every URL, then evaluate the comprehension
left to right over the shared caches — `fetch_youtube` for YouTube-family
netlocs, `fetch_ytdlp` otherwise.  An exception in any item propagates and
aborts the whole request. -/
def update_item (api : String → YtResponse) (ydl : String → Except Unit YdlInfo) :
    St → List String → Except PyErr (List FetchResult × St)
  | st, [] => .ok ([], st)
  | st, u :: rest =>
    let uc := urlparse u
    match (if uc.netloc ∈ youtube_domains
           then fetch_youtube api st uc
           else fetch_ytdlp ydl st uc) with
    | .error e => .error e
    | .ok (res, st1) =>
      match update_item api ydl st1 rest with
      | .error e => .error e
      | .ok (results, st2) => .ok (res :: results, st2)

/-! ## Auxiliary definitions for the claim statements -/

/-- An optional segment of a duration token: the digits followed by the
marker character, or nothing. -/
def ptSeg (seg : Option (List Char)) (marker : Char) : List Char :=
  match seg with
  | none => []
  | some ds => ds ++ [marker]

/-- A well-formed duration token `PT[<h>H][<m>M][<s>S]`. -/
def ptToken (hseg mseg sseg : Option (List Char)) : String :=
  String.mk ('P' :: 'T' :: (ptSeg hseg 'H' ++ ptSeg mseg 'M' ++ ptSeg sseg 'S'))

/-- A segment is absent, or a nonempty run of decimal digits. -/
def segOKb : Option (List Char) → Bool
  | none => true
  | some ds => !ds.isEmpty && ds.all Char.isDigit

/-- The numeric value of an optional segment, missing segments counting 0. -/
def segVal : Option (List Char) → Int
  | none => 0
  | some ds => digitsVal ds

/-- The sixteen lowercase hex characters. -/
def hexAlphabet : List Char := "0123456789abcdef".toList

/-- A record's `duration` is an integer or `None` (never a string). -/
def durOKb (r : Record) : Bool :=
  match r.duration with
  | .vNone => true
  | .vInt _ => true
  | .vStr _ => false

/-- A record produced by the generic-extraction path: duration integer or
`None`, and an upload timestamp that is a whole number of days (UTC
midnight) in seconds. -/
def genOKb (r : Record) : Bool :=
  durOKb r && r.upload_date % 86400 == 0

/-- Every cached record is well-shaped: `yt_cache` entries have integer or
null durations, `ytdlp_cache` entries additionally sit on UTC midnights. -/
def wfSt (st : St) : Bool :=
  st.yt_cache.all (fun p => durOKb p.2)
    && st.ytdlp_cache.all (fun p => p.2.all (fun q => genOKb q.2))

/-- The raw dicts an extractor response can surface. -/
def infoDicts : YdlInfo → List PyDict
  | .flat d => [d]
  | .playlist ds => ds

/-- A raw dict whose `duration`, if any, is numeric or `None` — the shape
the yt-dlp library actually emits for that field. -/
def dictDurOK (d : PyDict) : Bool :=
  match alGet d "duration" with
  | none => true
  | some .vNone => true
  | some (.vInt _) => true
  | some (.vStr _) => false

/-- The adapter only emits raw dicts with numeric-or-null durations. -/
def ydlDurOK (ydl : String → Except Unit YdlInfo) : Prop :=
  ∀ u, (match ydl u with
        | .ok info => (infoDicts info).all dictDurOK
        | .error _ => true) = true

/-- The uploader string of a result, if it is a success record with a
string uploader. -/
def uploaderOf : FetchResult → Option String
  | .record r =>
    match r.uploader with
    | .vStr s => some s
    | _ => none
  | .invalid _ => none

/-! ### Concrete mock adapters and inputs used by witnesses and
counterexamples -/

/-- A raw twitter post record as yt-dlp returns it for
`https://twitter.com/u/status/123`, with a chosen `uploader_id`. -/
def xRawT (who : String) : PyDict :=
  [("title", .vStr "hello"), ("uploader_id", .vStr who),
   ("upload_date", .vStr "20240101"), ("duration", .vInt 10),
   ("webpage_url_domain", .vStr "twitter.com"), ("display_id", .vStr "123")]

/-- A mock extractor answering every URL with alice's post. -/
def mockX1 : String → Except Unit YdlInfo := fun _ => .ok (.flat (xRawT "alice"))

/-- A mock extractor answering every URL with bob's post. -/
def mockX2 : String → Except Unit YdlInfo := fun _ => .ok (.flat (xRawT "bob"))

/-- The x.com input URL of the cache counterexample. -/
def ucx : ParseResult := urlparse "https://x.com/u/status/123"

/-- Its twitter.com equivalent (same path). -/
def uctw : ParseResult := urlparse "https://twitter.com/u/status/123"

/-- The state left behind by the first x.com fetch. -/
def c2State1 : St :=
  match fetch_ytdlp mockX1 initSt ucx with
  | .ok p => p.2
  | .error _ => initSt

/-- A raw dailymotion record whose provider-reported domain and display id
agree with the lookup key of `https://dailymotion.com/video/vid1`. -/
def dmRaw : PyDict :=
  [("title", .vStr "t"), ("channel", .vStr "c"), ("upload_date", .vStr "20240102"),
   ("duration", .vInt 60), ("webpage_url_domain", .vStr "dailymotion.com"),
   ("display_id", .vStr "vid1")]

/-- A mock extractor answering with the dailymotion record. -/
def mockDm : String → Except Unit YdlInfo := fun _ => .ok (.flat dmRaw)

/-- A second, observably different mock extractor for the same identity. -/
def mockDm2 : String → Except Unit YdlInfo :=
  fun _ => .ok (.flat (alSet dmRaw "channel" (.vStr "other")))

/-- The dailymotion input URL. -/
def ucDm : ParseResult := urlparse "https://dailymotion.com/video/vid1"

/-- The state left behind by the first dailymotion fetch. -/
def c2DmSt1 : St :=
  match fetch_ytdlp mockDm initSt ucDm with
  | .ok p => p.2
  | .error _ => initSt

/-- A mock YouTube API client: every id resolves to one well-formed item. -/
def mockApi : String → YtResponse :=
  fun _ => ⟨[⟨⟨"vid title", "chan", "2024-01-01T00:00:00Z"⟩, "PT1M"⟩]⟩

/-- A second mock API client with a different channel, to observe
re-invocation. -/
def mockApi2 : String → YtResponse :=
  fun _ => ⟨[⟨⟨"vid title", "chan2", "2024-01-01T00:00:00Z"⟩, "PT1M"⟩]⟩

/-- A shortened YouTube URL. -/
def ucY : ParseResult := urlparse "https://youtu.be/abc"

/-- The state left behind by the first YouTube fetch of `ucY`. -/
def c2YtSt1 : St :=
  match fetch_youtube mockApi initSt ucY with
  | .ok p => p.2
  | .error _ => initSt

/-- The YouTube record `mockApi` leads to. -/
def ytRec1 : Record :=
  ⟨.vStr "vid title", .vStr "chan", 1704067200, .vInt 60⟩

/-- A raw twitter record for the C4 witness: `uploader_id` `abc`, `title`
`hello`. -/
def twRaw : PyDict :=
  [("uploader_id", .vStr "abc"), ("title", .vStr "hello"),
   ("upload_date", .vStr "20240101"),
   ("webpage_url_domain", .vStr "twitter.com"), ("display_id", .vStr "178")]

/-- A mock extractor answering with `twRaw`. -/
def mockTw : String → Except Unit YdlInfo := fun _ => .ok (.flat twRaw)

/-- A native twitter status URL. -/
def ucTw4 : ParseResult := urlparse "https://twitter.com/doubleW/status/178"

/-- The record the C4 witness fetch produces. -/
def c4Rec : Record :=
  match fetch_ytdlp mockTw initSt ucTw4 with
  | .ok (.record r, _) => r
  | _ => ⟨.vNone, .vNone, 0, .vNone⟩

/-- The state the C4 witness fetch produces. -/
def c4St1 : St :=
  match fetch_ytdlp mockTw initSt ucTw4 with
  | .ok p => p.2
  | .error _ => initSt

/-- The batch of the C1 failing input: a valid YouTube URL, then a watch
URL with no `v` parameter, then another valid URL. -/
def c1Batch : List String :=
  ["https://youtu.be/abc", "https://www.youtube.com/watch", "https://youtu.be/def"]

/-- Lookup in the two-level generic-extraction cache. -/
def cacheLookup (st : St) (dom : String) (k : PyVal) : Option Record :=
  match alGet st.ytdlp_cache dom with
  | none => none
  | some inner => alGet inner k

/-- The record the dailymotion witness fetch produces. -/
def dmRec : Record :=
  match fetch_ytdlp mockDm initSt ucDm with
  | .ok (.record r, _) => r
  | _ => ⟨.vNone, .vNone, 0, .vNone⟩

/-! # Helper lemmas -/

theorem alGet_alSet_self {κ α : Type} [DecidableEq κ] (l : List (κ × α)) (k : κ) (v : α) :
    alGet (alSet l k v) k = some v := by
  induction l with
  | nil => simp [alGet, alSet]
  | cons p rest ih =>
    by_cases h : p.1 = k
    · simp [alSet, alGet, h]
    · simp [alSet, alGet, h, ih]

theorem alGet_alSet_ne {κ α : Type} [DecidableEq κ] (l : List (κ × α)) (k k' : κ) (v : α)
    (h : k ≠ k') : alGet (alSet l k v) k' = alGet l k' := by
  induction l with
  | nil => simp [alGet, alSet, h]
  | cons p rest ih =>
    by_cases hp : p.1 = k
    · simp [alSet, alGet, hp, h]
    · simp [alSet, alGet, hp, ih]

theorem pySplitChar_ne_nil (sep : Char) (l : List Char) : pySplitChar sep l ≠ [] := by
  cases l with
  | nil => simp [pySplitChar]
  | cons c rest =>
    simp only [pySplitChar]
    cases h : pySplitChar sep rest with
    | nil => simp
    | cons cur parts =>
      by_cases hc : c = sep <;> simp [hc]

theorem pySplitChar_not_mem (sep : Char) (l : List Char) (h : sep ∉ l) :
    pySplitChar sep l = [l] := by
  induction l with
  | nil => rfl
  | cons c rest ih =>
    have hc : c ≠ sep := fun hc => h (hc ▸ List.mem_cons_self c rest)
    have hrest : sep ∉ rest := fun hr => h (List.mem_cons_of_mem c hr)
    simp only [pySplitChar, ih hrest]
    simp [hc]

theorem pySplitChar_append (sep : Char) (xs ys : List Char) (h : sep ∉ xs) :
    pySplitChar sep (xs ++ sep :: ys) = xs :: pySplitChar sep ys := by
  induction xs with
  | nil =>
    simp only [List.nil_append, pySplitChar]
    cases hy : pySplitChar sep ys with
    | nil => exact absurd hy (pySplitChar_ne_nil sep ys)
    | cons cur parts => simp
  | cons c rest ih =>
    have hc : c ≠ sep := fun hc => h (hc ▸ List.mem_cons_self c rest)
    have hrest : sep ∉ rest := fun hr => h (List.mem_cons_of_mem c hr)
    simp only [List.cons_append, pySplitChar, List.append_eq]
    rw [ih hrest]
    simp [hc]

theorem contains_of_append_cons (c : Char) (xs ys : List Char) :
    (xs ++ c :: ys).contains c = true := by
  simp [List.contains, List.elem_iff]

theorem contains_false_of_not_mem {c : Char} {l : List Char} (h : c ∉ l) :
    l.contains c = false := by
  cases hc : l.contains c with
  | false => rfl
  | true =>
    exact absurd ((List.elem_iff).1 hc) h

theorem isDigit_ne_markers {c : Char} (h : c.isDigit = true) :
    c ≠ 'H' ∧ c ≠ 'M' ∧ c ≠ 'S' := by
  refine ⟨?_, ?_, ?_⟩ <;> rintro rfl <;> exact absurd h (by decide)

theorem mem_ptSeg {c : Char} {seg : Option (List Char)} {marker : Char}
    (hOK : segOKb seg = true) (hc : c ∈ ptSeg seg marker) :
    c.isDigit = true ∨ c = marker := by
  cases seg with
  | none => simp [ptSeg] at hc
  | some ds =>
    simp only [ptSeg, List.mem_append, List.mem_singleton] at hc
    rcases hc with hd | he
    · left
      simp only [segOKb, Bool.and_eq_true, List.all_eq_true] at hOK
      exact hOK.2 c hd
    · right; exact he

theorem pyInt_digits {ds : List Char} (hne : ds ≠ []) (hd : ds.all Char.isDigit = true) :
    pyInt ds = .ok (digitsVal ds) := by
  have : (!ds.isEmpty && ds.all Char.isDigit) = true := by
    simp [hd, List.isEmpty_iff, hne]
  simp [pyInt, this]

theorem not_mem_ptSeg_of_ne {c marker : Char} {seg : Option (List Char)}
    (hOK : segOKb seg = true) (hdig : c.isDigit = false) (hne : c ≠ marker) :
    c ∉ ptSeg seg marker := by
  intro hc
  rcases mem_ptSeg hOK hc with hd | he
  · rw [hdig] at hd; cases hd
  · exact hne he

theorem segOKb_some {ds : List Char} (h : segOKb (some ds) = true) :
    ds ≠ [] ∧ ds.all Char.isDigit = true := by
  simp only [segOKb, Bool.and_eq_true, Bool.not_eq_true'] at h
  obtain ⟨hie, hall⟩ := h
  refine ⟨fun heq => ?_, hall⟩
  subst heq
  simp at hie

theorem marker_not_mem_digits {c : Char} {ds : List Char}
    (hall : ds.all Char.isDigit = true) (hc : c.isDigit = false) : c ∉ ds := by
  intro hmem
  rw [List.all_eq_true] at hall
  have := hall c hmem
  rw [hc] at this
  cases this

theorem toList_mk (l : List Char) : (String.mk l).toList = l := rfl

theorem filter_digits_marker {sd : List Char} (hall : sd.all Char.isDigit = true) :
    (sd ++ ['S']).filter (fun c => c != 'S') = sd := by
  rw [List.filter_append]
  have h1 : sd.filter (fun c => c != 'S') = sd := by
    rw [List.filter_eq_self]
    intro a ha
    rw [List.all_eq_true] at hall
    have hd := hall a ha
    have : a ≠ 'S' := (isDigit_ne_markers hd).2.2
    simpa using this
  rw [h1]
  simp


theorem hm_not_mem {c marker : Char} {ds rest : List Char}
    (h1 : c ∉ ds) (h2 : c ≠ marker) (h3 : c ∉ rest) : c ∉ ds ++ marker :: rest := by
  intro h
  rcases List.mem_append.1 h with hx | hx
  · exact h1 hx
  · rcases List.mem_cons.1 hx with hx | hx
    exacts [h2 hx, h3 hx]

theorem stage_some (marker : Char) (ds rest : List Char)
    (hds : marker ∉ ds) (hrest : marker ∉ rest) :
    ((ds ++ marker :: rest).contains marker = true) ∧
      splitUnpack2 marker (ds ++ marker :: rest) = .ok (ds, rest) := by
  refine ⟨contains_of_append_cons _ _ _, ?_⟩
  simp [splitUnpack2, pySplitChar_append _ _ _ hds, pySplitChar_not_mem _ _ hrest]

theorem convert_ptToken (hseg mseg sseg : Option (List Char))
    (h1 : segOKb hseg = true) (h2 : segOKb mseg = true) (h3 : segOKb sseg = true) :
    convert_iso8601_duration_to_seconds (ptToken hseg mseg sseg) =
      .ok (segVal hseg * 3600 + segVal mseg * 60 + segVal sseg) := by
  cases hseg with
  | some hd =>
    obtain ⟨hne, hdig⟩ := segOKb_some h1
    have hHhd : ('H' : Char) ∉ hd := marker_not_mem_digits hdig (by decide)
    cases mseg with
    | some md =>
      obtain ⟨hmne, hmdig⟩ := segOKb_some h2
      have hMmd : ('M' : Char) ∉ md := marker_not_mem_digits hmdig (by decide)
      have hHmd : ('H' : Char) ∉ md := marker_not_mem_digits hmdig (by decide)
      cases sseg with
      | some sd =>
        obtain ⟨hsne, hsdig⟩ := segOKb_some h3
        have hHsd : ('H' : Char) ∉ sd := marker_not_mem_digits hsdig (by decide)
        have hMsd : ('M' : Char) ∉ sd := marker_not_mem_digits hsdig (by decide)
        have hb : ptSeg (some hd) 'H' ++ ptSeg (some md) 'M' ++ ptSeg (some sd) 'S'
            = hd ++ 'H' :: (md ++ 'M' :: (sd ++ 'S' :: [])) := by
          simp [ptSeg, List.append_assoc]
        obtain ⟨hc1, hs1⟩ := stage_some 'H' hd (md ++ 'M' :: (sd ++ 'S' :: [])) hHhd
          (hm_not_mem hHmd (by decide) (hm_not_mem hHsd (by decide) (List.not_mem_nil _)))
        obtain ⟨hc2, hs2⟩ := stage_some 'M' md (sd ++ 'S' :: []) hMmd
          (hm_not_mem hMsd (by decide) (List.not_mem_nil _))
        have hc3 := contains_of_append_cons 'S' sd ([] : List Char)
        have hfil : (sd ++ 'S' :: []).filter (fun c => c != 'S') = sd :=
          filter_digits_marker hsdig
        simp only [convert_iso8601_duration_to_seconds, ptToken, toList_mk, hb,
          hc1, if_true, hs1, pyInt_digits hne hdig, Bind.bind, Except.bind,
          hc2, hs2, pyInt_digits hmne hmdig,
          hc3, hfil, pyInt_digits hsne hsdig, Pure.pure, Except.pure, segVal]
      | none =>
        have hb : ptSeg (some hd) 'H' ++ ptSeg (some md) 'M' ++ ptSeg none 'S'
            = hd ++ 'H' :: (md ++ 'M' :: []) := by
          simp [ptSeg, List.append_assoc]
        obtain ⟨hc1, hs1⟩ := stage_some 'H' hd (md ++ 'M' :: []) hHhd
          (hm_not_mem hHmd (by decide) (List.not_mem_nil _))
        obtain ⟨hc2, hs2⟩ := stage_some 'M' md ([] : List Char) hMmd (List.not_mem_nil _)
        have hc3 : ([] : List Char).contains 'S' = false := rfl
        simp only [convert_iso8601_duration_to_seconds, ptToken, toList_mk, hb,
          hc1, if_true, hs1, pyInt_digits hne hdig, Bind.bind, Except.bind,
          hc2, hs2, pyInt_digits hmne hmdig,
          hc3, Bool.false_eq_true, if_false, Pure.pure, Except.pure, segVal]
    | none =>
      cases sseg with
      | some sd =>
        obtain ⟨hsne, hsdig⟩ := segOKb_some h3
        have hHsd : ('H' : Char) ∉ sd := marker_not_mem_digits hsdig (by decide)
        have hMsd : ('M' : Char) ∉ sd := marker_not_mem_digits hsdig (by decide)
        have hb : ptSeg (some hd) 'H' ++ ptSeg none 'M' ++ ptSeg (some sd) 'S'
            = hd ++ 'H' :: (sd ++ 'S' :: []) := by
          simp [ptSeg, List.append_assoc]
        obtain ⟨hc1, hs1⟩ := stage_some 'H' hd (sd ++ 'S' :: []) hHhd
          (hm_not_mem hHsd (by decide) (List.not_mem_nil _))
        have hc2 : (sd ++ 'S' :: []).contains 'M' = false :=
          contains_false_of_not_mem (hm_not_mem hMsd (by decide) (List.not_mem_nil _))
        have hc3 := contains_of_append_cons 'S' sd ([] : List Char)
        have hfil : (sd ++ 'S' :: []).filter (fun c => c != 'S') = sd :=
          filter_digits_marker hsdig
        simp only [convert_iso8601_duration_to_seconds, ptToken, toList_mk, hb,
          hc1, if_true, hs1, pyInt_digits hne hdig, Bind.bind, Except.bind,
          hc2, Bool.false_eq_true, if_false,
          hc3, hfil, pyInt_digits hsne hsdig, Pure.pure, Except.pure, segVal]
      | none =>
        have hb : ptSeg (some hd) 'H' ++ ptSeg none 'M' ++ ptSeg none 'S'
            = hd ++ 'H' :: [] := by
          simp [ptSeg, List.append_assoc]
        obtain ⟨hc1, hs1⟩ := stage_some 'H' hd ([] : List Char) hHhd (List.not_mem_nil _)
        have hc2 : ([] : List Char).contains 'M' = false := rfl
        have hc3 : ([] : List Char).contains 'S' = false := rfl
        simp only [convert_iso8601_duration_to_seconds, ptToken, toList_mk, hb,
          hc1, if_true, hs1, pyInt_digits hne hdig, Bind.bind, Except.bind,
          hc2, hc3, Bool.false_eq_true, if_false, Pure.pure, Except.pure, segVal]
  | none =>
    cases mseg with
    | some md =>
      obtain ⟨hmne, hmdig⟩ := segOKb_some h2
      have hMmd : ('M' : Char) ∉ md := marker_not_mem_digits hmdig (by decide)
      have hHmd : ('H' : Char) ∉ md := marker_not_mem_digits hmdig (by decide)
      cases sseg with
      | some sd =>
        obtain ⟨hsne, hsdig⟩ := segOKb_some h3
        have hHsd : ('H' : Char) ∉ sd := marker_not_mem_digits hsdig (by decide)
        have hMsd : ('M' : Char) ∉ sd := marker_not_mem_digits hsdig (by decide)
        have hb : ptSeg none 'H' ++ ptSeg (some md) 'M' ++ ptSeg (some sd) 'S'
            = md ++ 'M' :: (sd ++ 'S' :: []) := by
          simp [ptSeg, List.append_assoc]
        have hc1 : (md ++ 'M' :: (sd ++ 'S' :: [])).contains 'H' = false :=
          contains_false_of_not_mem
            (hm_not_mem hHmd (by decide) (hm_not_mem hHsd (by decide) (List.not_mem_nil _)))
        obtain ⟨hc2, hs2⟩ := stage_some 'M' md (sd ++ 'S' :: []) hMmd
          (hm_not_mem hMsd (by decide) (List.not_mem_nil _))
        have hc3 := contains_of_append_cons 'S' sd ([] : List Char)
        have hfil : (sd ++ 'S' :: []).filter (fun c => c != 'S') = sd :=
          filter_digits_marker hsdig
        simp only [convert_iso8601_duration_to_seconds, ptToken, toList_mk, hb,
          hc1, Bool.false_eq_true, if_false,
          hc2, if_true, hs2, pyInt_digits hmne hmdig, Bind.bind, Except.bind,
          hc3, hfil, pyInt_digits hsne hsdig, Pure.pure, Except.pure, segVal]
      | none =>
        have hb : ptSeg none 'H' ++ ptSeg (some md) 'M' ++ ptSeg none 'S'
            = md ++ 'M' :: [] := by
          simp [ptSeg, List.append_assoc]
        have hc1 : (md ++ 'M' :: []).contains 'H' = false :=
          contains_false_of_not_mem (hm_not_mem hHmd (by decide) (List.not_mem_nil _))
        obtain ⟨hc2, hs2⟩ := stage_some 'M' md ([] : List Char) hMmd (List.not_mem_nil _)
        have hc3 : ([] : List Char).contains 'S' = false := rfl
        simp only [convert_iso8601_duration_to_seconds, ptToken, toList_mk, hb,
          hc1, Bool.false_eq_true, if_false,
          hc2, if_true, hs2, pyInt_digits hmne hmdig, Bind.bind, Except.bind,
          hc3, Pure.pure, Except.pure, segVal]
    | none =>
      cases sseg with
      | some sd =>
        obtain ⟨hsne, hsdig⟩ := segOKb_some h3
        have hHsd : ('H' : Char) ∉ sd := marker_not_mem_digits hsdig (by decide)
        have hMsd : ('M' : Char) ∉ sd := marker_not_mem_digits hsdig (by decide)
        have hb : ptSeg none 'H' ++ ptSeg none 'M' ++ ptSeg (some sd) 'S'
            = sd ++ 'S' :: [] := by
          simp [ptSeg, List.append_assoc]
        have hc1 : (sd ++ 'S' :: []).contains 'H' = false :=
          contains_false_of_not_mem (hm_not_mem hHsd (by decide) (List.not_mem_nil _))
        have hc2 : (sd ++ 'S' :: []).contains 'M' = false :=
          contains_false_of_not_mem (hm_not_mem hMsd (by decide) (List.not_mem_nil _))
        have hc3 := contains_of_append_cons 'S' sd ([] : List Char)
        have hfil : (sd ++ 'S' :: []).filter (fun c => c != 'S') = sd :=
          filter_digits_marker hsdig
        simp only [convert_iso8601_duration_to_seconds, ptToken, toList_mk, hb,
          hc1, hc2, Bool.false_eq_true, if_false, Bind.bind, Except.bind,
          hc3, if_true, hfil, pyInt_digits hsne hsdig, Pure.pure, Except.pure, segVal]
      | none =>
        decide

theorem length_mk (l : List Char) : (String.mk l).length = l.length := rfl

theorem hexFold_length (bs : List Nat) :
    (bs.foldr (fun b acc => byteHex b ++ acc) []).length = 2 * bs.length := by
  induction bs with
  | nil => rfl
  | cons b rest ih =>
    have hb : (byteHex b).length = 2 := rfl
    simp only [List.foldr_cons, List.length_append, ih, hb, List.length_cons]
    omega

theorem sha256Bytes_length (msg : List Nat) : (sha256Bytes msg).length = 32 := by
  simp [sha256Bytes, wordBytes]

theorem mem_hexFold {c : Char} {bs : List Nat}
    (h : c ∈ bs.foldr (fun b acc => byteHex b ++ acc) []) : ∃ b, c ∈ byteHex b := by
  induction bs with
  | nil => simp at h
  | cons b rest ih =>
    simp only [List.foldr_cons, List.mem_append] at h
    rcases h with h | h
    exacts [⟨b, h⟩, ih h]

theorem nibbleChar_hex (n : Nat) : nibbleChar (n % 16) ∈ hexAlphabet := by
  have hlt : n % 16 < 16 := Nat.mod_lt _ (by norm_num)
  have hall : ∀ k : Fin 16, nibbleChar k.val ∈ hexAlphabet := by decide
  exact hall ⟨n % 16, hlt⟩

theorem mem_byteHex_hex {c : Char} {b : Nat} (h : c ∈ byteHex b) : c ∈ hexAlphabet := by
  simp only [byteHex, List.mem_cons, List.mem_singleton, List.not_mem_nil, or_false] at h
  rcases h with h | h <;> subst h <;> exact nibbleChar_hex _

theorem hash_str_length (s : String) : (hash_str s).length = 5 := by
  rw [hash_str, length_mk, List.length_take, hexFold_length, sha256Bytes_length]
  omega

theorem hash_str_hex (s : String) : ∀ c ∈ (hash_str s).toList, c ∈ hexAlphabet := by
  intro c hc
  rw [hash_str, toList_mk] at hc
  obtain ⟨b, hb⟩ := mem_hexFold (List.take_subset 5 _ hc)
  exact mem_byteHex_hex hb

/-! # The claims -/

/-- Claim C6: the duration codec maps a token `PT[<h>H][<m>M][<s>S]` (each
segment a nonempty digit run, each independently optional) to
`hours * 3600 + minutes * 60 + seconds` with every missing segment
defaulting to zero; in particular `PT1H2M3S` maps to 3723, `PT45S` to 45,
`PT2H` to 7200, and `PT` to 0. -/
theorem c6_duration_codec :
    (∀ hseg mseg sseg : Option (List Char),
      segOKb hseg = true → segOKb mseg = true → segOKb sseg = true →
      convert_iso8601_duration_to_seconds (ptToken hseg mseg sseg) =
        .ok (segVal hseg * 3600 + segVal mseg * 60 + segVal sseg))
    ∧ convert_iso8601_duration_to_seconds "PT1H2M3S" = .ok 3723
    ∧ convert_iso8601_duration_to_seconds "PT45S" = .ok 45
    ∧ convert_iso8601_duration_to_seconds "PT2H" = .ok 7200
    ∧ convert_iso8601_duration_to_seconds "PT" = .ok 0 :=
  ⟨convert_ptToken, by decide, by decide, by decide, by decide⟩

/-- Witness for C6: instantiating the codec theorem at the segments of
`PT1H2M3S` with its hypotheses discharged by computation. -/
theorem c6_duration_codec_witness :
    (segOKb (some ['1']) = true ∧ segOKb (some ['2']) = true ∧ segOKb (some ['3']) = true)
    ∧ convert_iso8601_duration_to_seconds (ptToken (some ['1']) (some ['2']) (some ['3']))
        = .ok (segVal (some ['1']) * 3600 + segVal (some ['2']) * 60 + segVal (some ['3'])) :=
  ⟨⟨by decide, by decide, by decide⟩,
   c6_duration_codec.1 (some ['1']) (some ['2']) (some ['3'])
     (by decide) (by decide) (by decide)⟩

/-- Claim C7: the pseudonymizer `hash_str` is deterministic (equal inputs
yield equal outputs) and length-stable: its output is always exactly five
characters, each a lowercase hexadecimal digit (it is the 5-character
prefix of the SHA-256 hex digest of the input's UTF-8 bytes). -/
theorem c7_hash_deterministic :
    (∀ s t : String, s = t → hash_str s = hash_str t)
    ∧ ∀ s : String, (hash_str s).length = 5 ∧ ∀ c ∈ (hash_str s).toList, c ∈ hexAlphabet :=
  ⟨fun _ _ h => h ▸ rfl, fun s => ⟨hash_str_length s, hash_str_hex s⟩⟩

/-- Witness for C7: the theorem applied at the concrete input `hello`. -/
theorem c7_hash_deterministic_witness :
    hash_str "hello" = hash_str "hello" ∧ (hash_str "hello").length = 5 :=
  ⟨c7_hash_deterministic.1 "hello" "hello" rfl, (c7_hash_deterministic.2 "hello").1⟩

/-- Claim C8 (amended): a URL whose normalized domain is outside the
ten-domain allow-list is rejected by `fetch_ytdlp` with the structured
rejection object whose message is `Url not from an accepted domain` (not
`domain not accepted` as the claim words it), without raising and without
touching the state. -/
theorem c8_domain_reject (ydl : String → Except Unit YdlInfo) (st : St) (uc : ParseResult)
    (h : normalizeNetloc uc.netloc ∉ accepted_domains) :
    fetch_ytdlp ydl st uc = .ok (.invalid "Url not from an accepted domain", st) := by
  simp only [fetch_ytdlp]
  rw [if_pos h]

/-- Counterexample for C8 as stated: at `https://example.org/video/1` the
code does reject, but the rejection message is
`Url not from an accepted domain`, not the claimed `domain not accepted`. -/
theorem c8_message_cex :
    fetch_ytdlp mockX1 initSt (urlparse "https://example.org/video/1")
      = .ok (.invalid "Url not from an accepted domain", initSt)
    ∧ fetch_ytdlp mockX1 initSt (urlparse "https://example.org/video/1")
      ≠ .ok (.invalid "domain not accepted", initSt) := by
  constructor <;> decide

/-- Witness for C8: the amended rejection theorem applied at
`https://example.org/video/1`. -/
theorem c8_domain_reject_witness :
    (normalizeNetloc (urlparse "https://example.org/video/1").netloc ∉ accepted_domains)
    ∧ fetch_ytdlp mockX2 initSt (urlparse "https://example.org/video/1") =
        .ok (.invalid "Url not from an accepted domain", initSt) :=
  ⟨by decide, c8_domain_reject mockX2 initSt _ (by decide)⟩

/-- Claim C3 (code bug): for the YouTube-family URL
`https://www.youtube.com/watch` none of the three id patterns yields a
video id, yet instead of the per-item "no identifiable video" rejection the
code raises `KeyError('v')` (`query_params["v"][0]` on line 34,
contradicting the docstring of `extract_video_id`, which promises `None`
when no id can be extracted), so the exception aborts the batch. -/
theorem c3_watch_keyerror (api : String → YtResponse) (st : St) :
    fetch_youtube api st (urlparse "https://www.youtube.com/watch")
      = .error (.keyError "v") := rfl

/-- Claim C1 (code bug): the batch
`[https://youtu.be/abc, https://www.youtube.com/watch, https://youtu.be/def]`
does not yield three results with a rejection in the middle slot: the
`KeyError('v')` raised on the second item aborts the whole request and even
the first item's successfully computed record is lost. -/
theorem c1_batch_abort :
    update_item mockApi mockX1 initSt c1Batch = .error (.keyError "v") := by
  decide

theorem finishResponse_no_invalid (st : St) (changes : Changes) (d0 : PyDict)
    (msg : String) (st' : St)
    (h : finishResponse st changes d0 = .ok (.invalid msg, st')) : False := by
  unfold finishResponse at h
  repeat' split at h
  all_goals simp_all

/-- Claim C10: rejections are atomic with respect to the caches — whenever
`fetch_youtube` or `fetch_ytdlp` returns a structured rejection object
(no extractable id, unsupported domain, empty API item list, or a caught
DownloadError), the state (both caches) is returned unchanged. -/
theorem c10_rejection_atomic (api : String → YtResponse) (ydl : String → Except Unit YdlInfo)
    (st : St) (uc : ParseResult) (msg : String) (st' : St) :
    (fetch_youtube api st uc = .ok (.invalid msg, st') → st' = st)
    ∧ (fetch_ytdlp ydl st uc = .ok (.invalid msg, st') → st' = st) := by
  constructor
  · intro h
    unfold fetch_youtube at h
    repeat' split at h
    all_goals simp_all
  · intro h
    unfold fetch_ytdlp at h
    by_cases hc : normalizeNetloc uc.netloc ∉ accepted_domains
    · rw [if_pos hc] at h
      simp_all
    · rw [if_neg hc] at h
      repeat' (first | (split at h) | simp_all)
      all_goals exact (finishResponse_no_invalid _ _ _ _ _ h).elim

/-- Witness for C10: the atomicity theorem applied to the concrete
rejection of `https://youtu.be` (empty path, no id). -/
theorem c10_rejection_atomic_witness :
    fetch_youtube mockApi initSt (urlparse "https://youtu.be")
      = .ok (.invalid "No video id present", initSt)
    ∧ initSt = initSt :=
  ⟨by decide,
   (c10_rejection_atomic mockApi mockX1 initSt (urlparse "https://youtu.be")
     "No video id present" initSt).1 (by decide)⟩

/-- Claim C2 (amended): for the ManagedPlatform family the claim holds as
stated — a successful `fetch_youtube` leaves the record cached under the
extracted video id, and any second call for the same URL returns that
cached record with the state unchanged and without consulting the adapter
(the result is the same for every adapter).  For the GenericExtraction
family the second call is adapter-free only under the additional condition
that the first call ended with the record reachable under the lookup
identity (normalized domain, last path segment) — the store key is
`(response["webpage_url_domain"], response["display_id"])`, which x.com
URLs violate (see the counterexample). -/
theorem c2_cache_amended :
    (∀ (api : String → YtResponse) (st : St) (uc : ParseResult) (r : Record) (st' : St),
      fetch_youtube api st uc = .ok (.record r, st') →
      ∃ vid, extract_video_id uc = .ok (some vid) ∧ alGet st'.yt_cache vid = some r ∧
        ∀ api2, fetch_youtube api2 st' uc = .ok (.record r, st'))
    ∧ (∀ (ydl : String → Except Unit YdlInfo) (st : St) (uc : ParseResult)
        (r : Record) (st' : St),
      fetch_ytdlp ydl st uc = .ok (.record r, st') →
      cacheLookup st' (normalizeNetloc uc.netloc) (.vStr (videoIdOf uc.path)) = some r →
      ∀ ydl2, fetch_ytdlp ydl2 st' uc = .ok (.record r, st')) := by
  constructor
  · intro api st uc r st' h
    unfold fetch_youtube at h
    cases hex : extract_video_id uc with
    | error e => rw [hex] at h; simp at h
    | ok vopt =>
      rw [hex] at h
      dsimp only at h
      cases vopt with
      | none => simp at h
      | some vid =>
        dsimp only at h
        by_cases hvid : vid = ""
        · rw [if_pos hvid] at h; simp at h
        · rw [if_neg hvid] at h
          refine ⟨vid, rfl, ?_⟩
          cases hcache : alGet st.yt_cache vid with
          | some r0 =>
            rw [hcache] at h
            simp only [Except.ok.injEq, Prod.mk.injEq, FetchResult.record.injEq] at h
            obtain ⟨hr, hst⟩ := h
            subst hr; subst hst
            refine ⟨hcache, fun api2 => ?_⟩
            unfold fetch_youtube
            rw [hex]
            dsimp only
            rw [if_neg hvid, hcache]
          | none =>
            rw [hcache] at h
            cases hitems : (api vid).items with
            | nil => rw [hitems] at h; simp at h
            | cons item rest =>
              rw [hitems] at h
              dsimp only at h
              cases hts : parseIsoTimestamp item.snippet.publishedAt with
              | error e => rw [hts] at h; simp at h
              | ok ts =>
                rw [hts] at h
                dsimp only at h
                cases hdur : convert_iso8601_duration_to_seconds item.duration with
                | error e => rw [hdur] at h; simp at h
                | ok dur =>
                  rw [hdur] at h
                  dsimp only at h
                  simp only [Except.ok.injEq, Prod.mk.injEq, FetchResult.record.injEq] at h
                  obtain ⟨hr, hst⟩ := h
                  rw [hr] at hst
                  have hlook : alGet st'.yt_cache vid = some r := by
                    rw [← hst]
                    exact alGet_alSet_self st.yt_cache vid r
                  refine ⟨hlook, fun api2 => ?_⟩
                  unfold fetch_youtube
                  rw [hex]
                  dsimp only
                  rw [if_neg hvid, hlook]
                  try rfl
  · intro ydl st uc r st' h hstore ydl2
    have hdom : ¬ normalizeNetloc uc.netloc ∉ accepted_domains := by
      intro hc
      unfold fetch_ytdlp at h
      rw [if_pos hc] at h
      simp at h
    unfold fetch_ytdlp
    rw [if_neg hdom]
    unfold cacheLookup at hstore
    cases hout : alGet st'.ytdlp_cache (normalizeNetloc uc.netloc) with
    | none => rw [hout] at hstore; simp at hstore
    | some inner =>
      rw [hout] at hstore
      dsimp only at hstore
      dsimp only
      rw [hstore]
      try rfl

/-- Counterexample for C2 as stated: the identity of
`https://x.com/u/status/123` is (`x.com`, `123`), yet after a first
successful fetch (with an adapter answering alice's post) a second request
for the same identity with a different adapter (bob's post) returns bob's
record — the adapter was re-invoked, because the first call stored the
record under `webpage_url_domain` `twitter.com`, not under the lookup key
`x.com`, which stays empty. -/
theorem c2_cache_cex :
    (fetch_ytdlp mockX1 initSt ucx).map (fun p => uploaderOf p.1) = .ok (some "alice")
    ∧ (fetch_ytdlp mockX2 c2State1 ucx).map (fun p => uploaderOf p.1) = .ok (some "bob")
    ∧ cacheLookup c2State1 "x.com" (.vStr "123") = none := by
  refine ⟨?_, ?_, ?_⟩ <;> decide

/-- Witness for C2: both halves of the amended theorem applied at concrete
inputs — a YouTube fetch of `https://youtu.be/abc` against `mockApi`, and a
dailymotion fetch whose provider-reported keys agree with the lookup keys,
each followed by a second call with a different adapter. -/
theorem c2_cache_amended_witness :
    (fetch_youtube mockApi initSt ucY = .ok (.record ytRec1, c2YtSt1)
     ∧ ∃ vid, extract_video_id ucY = .ok (some vid)
        ∧ alGet c2YtSt1.yt_cache vid = some ytRec1
        ∧ ∀ api2, fetch_youtube api2 c2YtSt1 ucY = .ok (.record ytRec1, c2YtSt1))
    ∧ (fetch_ytdlp mockDm initSt ucDm = .ok (.record dmRec, c2DmSt1)
       ∧ cacheLookup c2DmSt1 (normalizeNetloc ucDm.netloc) (.vStr (videoIdOf ucDm.path))
           = some dmRec
       ∧ fetch_ytdlp mockDm2 c2DmSt1 ucDm = .ok (.record dmRec, c2DmSt1)) := by
  have h1 : fetch_youtube mockApi initSt ucY = .ok (.record ytRec1, c2YtSt1) := by decide
  have h2 : fetch_ytdlp mockDm initSt ucDm = .ok (.record dmRec, c2DmSt1) := by decide
  have hs : cacheLookup c2DmSt1 (normalizeNetloc ucDm.netloc) (.vStr (videoIdOf ucDm.path))
      = some dmRec := by decide
  exact ⟨⟨h1, c2_cache_amended.1 mockApi initSt ucY ytRec1 c2YtSt1 h1⟩,
         ⟨h2, hs, c2_cache_amended.2 mockDm initSt ucDm dmRec c2DmSt1 h2 hs mockDm2⟩⟩

theorem alGet_mem {κ α : Type} [DecidableEq κ] {l : List (κ × α)} {k : κ} {v : α}
    (h : alGet l k = some v) : (k, v) ∈ l := by
  induction l with
  | nil => simp [alGet] at h
  | cons p rest ih =>
    obtain ⟨pk, pv⟩ := p
    by_cases hp : pk = k
    · subst hp
      simp [alGet] at h
      subst h
      exact List.mem_cons_self _ _
    · simp only [alGet, if_neg hp] at h
      exact List.mem_cons_of_mem _ (ih h)

theorem all_alSet {κ α : Type} [DecidableEq κ] {l : List (κ × α)} {q : κ × α → Bool}
    {k : κ} {v : α} (hl : l.all q = true) (hv : q (k, v) = true) :
    (alSet l k v).all q = true := by
  induction l with
  | nil => simp [alSet, hv]
  | cons p rest ih =>
    obtain ⟨pk, pv⟩ := p
    simp only [List.all_cons, Bool.and_eq_true] at hl
    by_cases hp : pk = k
    · simp [alSet, hp, hv, hl.2]
    · simp [alSet, hp, hl.1, ih hl.2]

theorem mem_alSet {κ α : Type} [DecidableEq κ] {l : List (κ × α)} {k k' : κ} {v v' : α}
    (h : (k', v') ∈ alSet l k v) : (k', v') ∈ l ∨ (k' = k ∧ v' = v) := by
  induction l with
  | nil =>
    simp only [alSet, List.mem_singleton, Prod.mk.injEq] at h
    exact Or.inr h
  | cons p rest ih =>
    obtain ⟨pk, pv⟩ := p
    by_cases hp : pk = k
    · simp only [alSet, if_pos hp, List.mem_cons, Prod.mk.injEq] at h
      rcases h with ⟨h1, h2⟩ | h
      · exact Or.inr ⟨hp ▸ h1, h2⟩
      · exact Or.inl (List.mem_cons_of_mem _ h)
    · simp only [alSet, if_neg hp, List.mem_cons] at h
      rcases h with h | h
      · exact Or.inl (h ▸ List.mem_cons_self _ _)
      · rcases ih h with h | h
        · exact Or.inl (List.mem_cons_of_mem _ h)
        · exact Or.inr h

theorem mem_alRemove {κ α : Type} [DecidableEq κ] {l : List (κ × α)} {k' : κ}
    {kv : κ × α} (h : kv ∈ alRemove l k') : kv ∈ l := by
  induction l with
  | nil => simp [alRemove] at h
  | cons p rest ih =>
    obtain ⟨pk, pv⟩ := p
    by_cases hp : pk = k'
    · rw [alRemove, if_pos hp] at h
      exact List.mem_cons_of_mem _ h
    · rw [alRemove, if_neg hp] at h
      rcases List.mem_cons.1 h with h | h
      · exact h ▸ List.mem_cons_self _ _
      · exact List.mem_cons_of_mem _ (ih h)

theorem dictDurOK_alSet_ne {d : PyDict} {k : String} {v : PyVal} (hk : k ≠ "duration") :
    dictDurOK (alSet d k v) = dictDurOK d := by
  unfold dictDurOK
  rw [alGet_alSet_ne _ _ _ _ hk]

theorem dictDurOK_alSet_none (d : PyDict) : dictDurOK (alSet d "duration" .vNone) = true := by
  unfold dictDurOK
  rw [alGet_alSet_self]

theorem applyChanges_durOK : ∀ (cs : Changes) (d d' : PyDict),
    (∀ cv, ("duration", cv) ∈ cs → cv = .cNone) → dictDurOK d = true →
    applyChanges cs d = .ok d' → dictDurOK d' = true := by
  intro cs
  induction cs with
  | nil =>
    intro d d' _ hd h
    simp only [applyChanges, Except.ok.injEq] at h
    exact h ▸ hd
  | cons p rest ih =>
    obtain ⟨k, cv⟩ := p
    intro d d' hdur hd h
    cases cv with
    | cNone =>
      rw [applyChanges] at h
      refine ih _ _ (fun cv hm => hdur cv (List.mem_cons_of_mem _ hm)) ?_ h
      by_cases hk : k = "duration"
      · subst hk; exact dictDurOK_alSet_none d
      · rw [dictDurOK_alSet_ne hk]; exact hd
    | cStr other =>
      rw [applyChanges] at h
      have hk : k ≠ "duration" := by
        intro hkeq
        subst hkeq
        exact absurd (hdur _ (List.mem_cons_self _ _)) (by simp)
      refine ih _ _ (fun cv hm => hdur cv (List.mem_cons_of_mem _ hm)) ?_ h
      rw [dictDurOK_alSet_ne hk]; exact hd
    | cFun f =>
      rw [applyChanges] at h
      cases hf : f d with
      | error e => rw [hf] at h; simp at h
      | ok v =>
        rw [hf] at h
        dsimp only at h
        have hk : k ≠ "duration" := by
          intro hkeq
          subst hkeq
          exact absurd (hdur _ (List.mem_cons_self _ _)) (by simp)
        refine ih _ _ (fun cv hm => hdur cv (List.mem_cons_of_mem _ hm)) ?_ h
        rw [dictDurOK_alSet_ne hk]; exact hd

theorem strptimeYmd_mod {s : String} {ts : Int} (h : strptimeYmd s = .ok ts) :
    ts % 86400 = 0 := by
  unfold strptimeYmd at h
  repeat' split at h
  all_goals simp_all [Int.mul_emod_left]
  all_goals omega
theorem preprocess_dur : ∀ (f : Nat) (uc : ParseResult) (cs : Changes),
    preprocessAux f uc = .ok cs → ∀ cv, ("duration", cv) ∈ cs → cv = .cNone := by
  intro f
  induction f with
  | zero =>
    intro uc cs h cv hm
    simp [preprocessAux] at h
  | succ n ih =>
    intro uc cs h cv hm
    unfold preprocessAux at h
    cases hsite : siteOf uc.netloc with
    | error e => rw [hsite] at h; simp at h
    | ok site =>
      rw [hsite] at h
      dsimp only at h
      split at h
      · cases hrec : preprocessAux n (urlparse ("https://twitter.com" ++ uc.path)) with
        | error e => rw [hrec] at h; simp at h
        | ok inner =>
          rw [hrec] at h
          dsimp only at h
          simp only [Except.ok.injEq] at h
          subst h
          rcases mem_alSet hm with hmem | ⟨hk, _⟩
          · exact ih _ _ hrec cv hmem
          · simp at hk
      all_goals repeat' split at h
      all_goals first
        | (simp at h; done)
        | ((try simp only [Except.ok.injEq] at h); subst h; simp [alSet] at hm;
           (try exact hm); done)
theorem durOKb_of_dict {response : PyDict} (hd : dictDurOK response = true) (ts : Int) :
    durOKb ⟨(alGet response "title").getD .vNone, (alGet response "channel").getD .vNone,
            ts, (alGet response "duration").getD .vNone⟩ = true := by
  unfold dictDurOK at hd
  unfold durOKb
  cases hget : alGet response "duration" with
  | none => simp
  | some v => rw [hget] at hd; cases v <;> simp_all

theorem finishResponse_ok (st : St) (changes : Changes) (d0 : PyDict) (r : Record) (st' : St)
    (hwf : wfSt st = true)
    (hdurcs : ∀ cv, ("duration", cv) ∈ changes → cv = .cNone)
    (hd0 : dictDurOK d0 = true)
    (h : finishResponse st changes d0 = .ok (.record r, st')) :
    durOKb r = true ∧ r.upload_date % 86400 = 0 ∧ wfSt st' = true := by
  rw [wfSt, Bool.and_eq_true] at hwf
  obtain ⟨hwfy, hwfg⟩ := hwf
  unfold finishResponse at h
  cases happ : applyChanges changes d0 with
  | error e => rw [happ] at h; simp at h
  | ok response =>
    rw [happ] at h
    dsimp only at h
    have hresp : dictDurOK response = true := applyChanges_durOK changes d0 response hdurcs hd0 happ
    cases hud : alGet response "upload_date" with
    | none => rw [hud] at h; simp at h
    | some udv =>
      rw [hud] at h
      cases udv with
      | vNone => simp at h
      | vInt n => simp at h
      | vStr s =>
        dsimp only at h
        cases hts : strptimeYmd s with
        | error e => rw [hts] at h; simp at h
        | ok ts =>
          rw [hts] at h
          dsimp only at h
          cases hwd : alGet response "webpage_url_domain" with
          | none => rw [hwd] at h; simp at h
          | some wd =>
            rw [hwd] at h
            cases wd with
            | vNone => simp at h
            | vInt n => simp at h
            | vStr dom =>
              dsimp only at h
              cases hout2 : alGet st.ytdlp_cache dom with
              | none => rw [hout2] at h; simp at h
              | some inner2 =>
                rw [hout2] at h
                dsimp only at h
                cases hdid : alGet response "display_id" with
                | none => rw [hdid] at h; simp at h
                | some did =>
                  rw [hdid] at h
                  dsimp only at h
                  simp only [Except.ok.injEq, Prod.mk.injEq, FetchResult.record.injEq] at h
                  obtain ⟨hr, hst⟩ := h
                  have hdur : durOKb r = true := by
                    rw [← hr]
                    exact durOKb_of_dict hresp ts
                  have hmod : r.upload_date % 86400 = 0 := by
                    rw [← hr]
                    exact strptimeYmd_mod hts
                  refine ⟨hdur, hmod, ?_⟩
                  rw [← hst, wfSt, Bool.and_eq_true]
                  refine ⟨hwfy, ?_⟩
                  refine all_alSet hwfg ?_
                  have hinmem := alGet_mem hout2
                  have hinner2 := List.all_eq_true.1 hwfg _ hinmem
                  refine all_alSet hinner2 ?_
                  have hgen : genOKb r = true := by
                    rw [genOKb, Bool.and_eq_true, hdur]
                    exact ⟨rfl, by rw [beq_iff_eq]; exact hmod⟩
                  rw [← hr] at hgen
                  exact hgen

theorem popUrl_sub {url0 : String} {changes0 : Changes} {url : String} {changes : Changes}
    (h : popUrl url0 changes0 = .ok (url, changes)) :
    ∀ kv, kv ∈ changes → kv ∈ changes0 := by
  unfold popUrl at h
  repeat' split at h
  all_goals first
    | (simp at h; done)
    | (simp only [Except.ok.injEq, Prod.mk.injEq] at h
       obtain ⟨h1, hc⟩ := h
       subst hc
       intro kv hm
       first
         | exact mem_alRemove hm
         | exact hm)

/-- Claim C9: every successful result of either adapter path is a record
with all four fields, whose duration is an integer number of seconds or
null (never a string), and whose generic-extraction upload timestamp is a
whole number of UTC days in epoch seconds (in particular an integer) —
assuming the caches are well-formed and the extraction library reports
numeric-or-null durations, both true of the initial state and of the real
library. -/
theorem c9_success_shape (api : String → YtResponse) (ydl : String → Except Unit YdlInfo)
    (st : St) (uc : ParseResult) (r : Record) (st' : St)
    (hwf : wfSt st = true) (hydl : ydlDurOK ydl) :
    (fetch_youtube api st uc = .ok (.record r, st') →
       durOKb r = true ∧ wfSt st' = true)
    ∧ (fetch_ytdlp ydl st uc = .ok (.record r, st') →
       durOKb r = true ∧ r.upload_date % 86400 = 0 ∧ wfSt st' = true) := by
  constructor
  · intro h
    rw [wfSt, Bool.and_eq_true] at hwf
    obtain ⟨hwfy, hwfg⟩ := hwf
    unfold fetch_youtube at h
    cases hex : extract_video_id uc with
    | error e => rw [hex] at h; simp at h
    | ok vopt =>
      rw [hex] at h
      dsimp only at h
      cases vopt with
      | none => simp at h
      | some vid =>
        dsimp only at h
        by_cases hvid : vid = ""
        · rw [if_pos hvid] at h; simp at h
        · rw [if_neg hvid] at h
          cases hcache : alGet st.yt_cache vid with
          | some r0 =>
            rw [hcache] at h
            simp only [Except.ok.injEq, Prod.mk.injEq, FetchResult.record.injEq] at h
            obtain ⟨hr, hst⟩ := h
            subst hr; subst hst
            refine ⟨List.all_eq_true.1 hwfy _ (alGet_mem hcache), ?_⟩
            rw [wfSt, Bool.and_eq_true]
            exact ⟨hwfy, hwfg⟩
          | none =>
            rw [hcache] at h
            cases hitems : (api vid).items with
            | nil => rw [hitems] at h; simp at h
            | cons item rest =>
              rw [hitems] at h
              dsimp only at h
              cases hts : parseIsoTimestamp item.snippet.publishedAt with
              | error e => rw [hts] at h; simp at h
              | ok ts =>
                rw [hts] at h
                dsimp only at h
                cases hdur : convert_iso8601_duration_to_seconds item.duration with
                | error e => rw [hdur] at h; simp at h
                | ok dur =>
                  rw [hdur] at h
                  dsimp only at h
                  simp only [Except.ok.injEq, Prod.mk.injEq, FetchResult.record.injEq] at h
                  obtain ⟨hr, hst⟩ := h
                  constructor
                  · rw [← hr]; rfl
                  · rw [← hst, wfSt, Bool.and_eq_true]
                    exact ⟨all_alSet hwfy rfl, hwfg⟩
  · intro h
    unfold fetch_ytdlp at h
    by_cases hdomx : normalizeNetloc uc.netloc ∉ accepted_domains
    · rw [if_pos hdomx] at h; simp at h
    · rw [if_neg hdomx] at h
      cases hout : alGet st.ytdlp_cache (normalizeNetloc uc.netloc) with
      | none => rw [hout] at h; simp at h
      | some inner =>
        rw [hout] at h
        dsimp only at h
        cases hhit : alGet inner (.vStr (videoIdOf uc.path)) with
        | some r0 =>
          rw [hhit] at h
          simp only [Except.ok.injEq, Prod.mk.injEq, FetchResult.record.injEq] at h
          obtain ⟨hr, hst⟩ := h
          subst hr; subst hst
          rw [wfSt, Bool.and_eq_true] at hwf
          obtain ⟨hwfy, hwfg⟩ := hwf
          have hg : genOKb r0 = true :=
            List.all_eq_true.1 (List.all_eq_true.1 hwfg _ (alGet_mem hout)) _ (alGet_mem hhit)
          rw [genOKb, Bool.and_eq_true] at hg
          obtain ⟨hd, hm86⟩ := hg
          refine ⟨hd, ?_, ?_⟩
          · rwa [beq_iff_eq] at hm86
          · rw [wfSt, Bool.and_eq_true]
            exact ⟨hwfy, hwfg⟩
        | none =>
          rw [hhit] at h
          cases hpre : preprocess uc with
          | error e => rw [hpre] at h; simp at h
          | ok changes0 =>
            rw [hpre] at h
            dsimp only at h
            cases hpop : popUrl (geturl uc) changes0 with
            | error e => rw [hpop] at h; simp at h
            | ok p =>
              obtain ⟨url, changes⟩ := p
              rw [hpop] at h
              dsimp only at h
              cases hy : ydl url with
              | error e => rw [hy] at h; simp at h
              | ok info =>
                rw [hy] at h
                dsimp only at h
                have hinfoOK : (infoDicts info).all dictDurOK = true := by
                  have hu := hydl url
                  rw [hy] at hu
                  exact hu
                have hdurcs : ∀ cv, ("duration", cv) ∈ changes → cv = .cNone :=
                  fun cv hm => preprocess_dur 2 uc changes0 hpre cv (popUrl_sub hpop _ hm)
                cases info with
                | flat d0 =>
                  dsimp only at h
                  have hd0 : dictDurOK d0 = true := by
                    simp only [infoDicts, List.all_cons, List.all_nil,
                      Bool.and_eq_true] at hinfoOK
                    exact hinfoOK.1
                  exact finishResponse_ok st changes d0 r st' hwf hdurcs hd0 h
                | playlist es =>
                  cases es with
                  | nil => simp at h
                  | cons d0 es2 =>
                    dsimp only at h
                    have hd0 : dictDurOK d0 = true := by
                      simp only [infoDicts, List.all_cons, Bool.and_eq_true] at hinfoOK
                      exact hinfoOK.1
                    exact finishResponse_ok st changes d0 r st' hwf hdurcs hd0 h

/-- Witness for C9: the theorem applied to a concrete YouTube fetch and a
concrete dailymotion fetch starting from the well-formed initial state. -/
theorem c9_success_shape_witness :
    wfSt initSt = true
    ∧ (durOKb ytRec1 = true ∧ wfSt c2YtSt1 = true)
    ∧ (durOKb dmRec = true ∧ dmRec.upload_date % 86400 = 0 ∧ wfSt c2DmSt1 = true) := by
  have hwf : wfSt initSt = true := by decide
  have hydl : ydlDurOK mockDm := fun u => rfl
  have h1 : fetch_youtube mockApi initSt ucY = .ok (.record ytRec1, c2YtSt1) := by decide
  have h2 : fetch_ytdlp mockDm initSt ucDm = .ok (.record dmRec, c2DmSt1) := by decide
  exact ⟨hwf,
    (c9_success_shape mockApi mockDm initSt ucY ytRec1 c2YtSt1 hwf hydl).1 h1,
    (c9_success_shape mockApi mockDm initSt ucDm dmRec c2DmSt1 hwf hydl).2 h2⟩
theorem preprocess_twitter {uc : ParseResult} (hsite : siteOf uc.netloc = .ok "twitter") :
    (∃ e, preprocess uc = .error e)
    ∨ preprocess uc = .ok [("channel", .cStr "uploader_id"), ("title", .cFun twitterTitle)]
    ∨ preprocess uc = .ok [("channel", .cStr "uploader_id"), ("title", .cFun twitterTitle),
        ("duration", .cNone)] := by
  have hred : preprocess uc
      = (if pyEndsWith "/video".toList (pySlice0 (geturl uc) (pyRfind '/' (geturl uc))).toList
         then
           match pyInt (pySliceFrom (geturl uc) (pyRfind '/' (geturl uc) + 1)).toList with
           | .error e => .error e
           | .ok k =>
             if k ≠ 1 then
               .ok [("channel", .cStr "uploader_id"), ("title", .cFun twitterTitle),
                    ("duration", .cNone)]
             else .ok [("channel", .cStr "uploader_id"), ("title", .cFun twitterTitle)]
         else .ok [("channel", .cStr "uploader_id"), ("title", .cFun twitterTitle)]) := by
    unfold preprocess preprocessAux
    rw [hsite]
    rfl
  rw [hred]
  split
  · split
    · exact Or.inl ⟨_, rfl⟩
    · split
      · exact Or.inr (Or.inr rfl)
      · exact Or.inr (Or.inl rfl)
  · exact Or.inr (Or.inl rfl)

theorem applyChanges_twitter (raw : PyDict) (u t : String)
    (hu : alGet raw "uploader_id" = some (.vStr u))
    (ht : alGet raw "title" = some (.vStr t)) :
    applyChanges [("channel", .cStr "uploader_id"), ("title", .cFun twitterTitle)] raw
      = .ok (alSet (alSet raw "channel" (.vStr u)) "title"
          (.vStr ("X post by " ++ u ++ " (" ++ hash_str t ++ ")"))) := by
  have h1 : alGet (alSet raw "channel" (.vStr u)) "title" = some (.vStr t) := by
    rw [alGet_alSet_ne _ _ _ _ (by decide)]
    exact ht
  have h2 : alGet (alSet raw "channel" (.vStr u)) "uploader_id" = some (.vStr u) := by
    rw [alGet_alSet_ne _ _ _ _ (by decide)]
    exact hu
  simp only [applyChanges, hu, Option.getD_some, twitterTitle, h1, h2, pyFmt]

theorem applyChanges_twitter3 (raw : PyDict) (u t : String)
    (hu : alGet raw "uploader_id" = some (.vStr u))
    (ht : alGet raw "title" = some (.vStr t)) :
    applyChanges [("channel", .cStr "uploader_id"), ("title", .cFun twitterTitle),
        ("duration", .cNone)] raw
      = .ok (alSet (alSet (alSet raw "channel" (.vStr u)) "title"
          (.vStr ("X post by " ++ u ++ " (" ++ hash_str t ++ ")"))) "duration" .vNone) := by
  have h1 : alGet (alSet raw "channel" (.vStr u)) "title" = some (.vStr t) := by
    rw [alGet_alSet_ne _ _ _ _ (by decide)]
    exact ht
  have h2 : alGet (alSet raw "channel" (.vStr u)) "uploader_id" = some (.vStr u) := by
    rw [alGet_alSet_ne _ _ _ _ (by decide)]
    exact hu
  simp only [applyChanges, hu, Option.getD_some, twitterTitle, h1, h2, pyFmt]

theorem finishResponse_fields {st : St} {changes : Changes} {d0 : PyDict}
    {r : Record} {st' : St}
    (h : finishResponse st changes d0 = .ok (.record r, st')) :
    ∃ response, applyChanges changes d0 = .ok response
      ∧ r.title = (alGet response "title").getD .vNone
      ∧ r.uploader = (alGet response "channel").getD .vNone := by
  unfold finishResponse at h
  cases happ : applyChanges changes d0 with
  | error e => rw [happ] at h; simp at h
  | ok response =>
    rw [happ] at h
    dsimp only at h
    refine ⟨response, rfl, ?_⟩
    repeat' split at h
    all_goals first
      | (simp at h; done)
      | (simp only [Except.ok.injEq, Prod.mk.injEq, FetchResult.record.injEq] at h
         obtain ⟨hr, h2⟩ := h
         rw [← hr]
         exact ⟨rfl, rfl⟩)

/-- Claim C4: for a twitter.com URL whose raw provider record carries
`uploader_id` `u` and `title` `t` (and which is not served from the cache),
a successful fetch returns a record whose uploader is `u` (remapped from
`uploader_id` via the `channel` key) and whose title is
`X post by u (hash_str t)`. -/
theorem c4_twitter_quirk (ydl : String → Except Unit YdlInfo) (st : St) (uc : ParseResult)
    (raw : PyDict) (u t : String) (r : Record) (st' : St)
    (hnet : uc.netloc = "twitter.com")
    (hmiss : cacheLookup st "twitter.com" (.vStr (videoIdOf uc.path)) = none)
    (hydl : ydl (geturl uc) = .ok (.flat raw))
    (hu : alGet raw "uploader_id" = some (.vStr u))
    (ht : alGet raw "title" = some (.vStr t))
    (h : fetch_ytdlp ydl st uc = .ok (.record r, st')) :
    r.uploader = .vStr u
    ∧ r.title = .vStr ("X post by " ++ u ++ " (" ++ hash_str t ++ ")") := by
  have hn : normalizeNetloc uc.netloc = "twitter.com" := by rw [hnet]; rfl
  have hsite : siteOf uc.netloc = .ok "twitter" := by rw [hnet]; rfl
  unfold fetch_ytdlp at h
  rw [hn] at h
  rw [if_neg (by decide : ¬ ("twitter.com" : String) ∉ accepted_domains)] at h
  cases hout : alGet st.ytdlp_cache "twitter.com" with
  | none => rw [hout] at h; simp at h
  | some inner =>
    rw [hout] at h
    dsimp only at h
    unfold cacheLookup at hmiss
    rw [hout] at hmiss
    dsimp only at hmiss
    rw [hmiss] at h
    dsimp only at h
    rcases preprocess_twitter hsite with ⟨e, hpre⟩ | hpre | hpre <;> rw [hpre] at h
    · simp at h
    · dsimp only at h
      have hpop : popUrl (geturl uc)
          [("channel", .cStr "uploader_id"), ("title", .cFun twitterTitle)]
          = .ok (geturl uc,
              [("channel", .cStr "uploader_id"), ("title", .cFun twitterTitle)]) := rfl
      rw [hpop] at h
      dsimp only at h
      rw [hydl] at h
      dsimp only at h
      obtain ⟨response, happ, htit, hupl⟩ := finishResponse_fields h
      rw [applyChanges_twitter raw u t hu ht] at happ
      simp only [Except.ok.injEq] at happ
      subst happ
      constructor
      · rw [hupl, alGet_alSet_ne _ _ _ _ (by decide), alGet_alSet_self]
        rfl
      · rw [htit, alGet_alSet_self]
        rfl
    · dsimp only at h
      have hpop : popUrl (geturl uc)
          [("channel", .cStr "uploader_id"), ("title", .cFun twitterTitle),
           ("duration", .cNone)]
          = .ok (geturl uc,
              [("channel", .cStr "uploader_id"), ("title", .cFun twitterTitle),
               ("duration", .cNone)]) := rfl
      rw [hpop] at h
      dsimp only at h
      rw [hydl] at h
      dsimp only at h
      obtain ⟨response, happ, htit, hupl⟩ := finishResponse_fields h
      rw [applyChanges_twitter3 raw u t hu ht] at happ
      simp only [Except.ok.injEq] at happ
      subst happ
      constructor
      · rw [hupl, alGet_alSet_ne _ _ _ _ (by decide),
          alGet_alSet_ne _ _ _ _ (by decide), alGet_alSet_self]
        rfl
      · rw [htit, alGet_alSet_ne _ _ _ _ (by decide), alGet_alSet_self]
        rfl

/-- Witness for C4: the theorem applied at the concrete raw record
`uploader_id = abc`, `title = hello`, matching the claim's "in particular"
instance: the title is `X post by abc (` ++ the 5-character hash of
`hello` ++ `)`. -/
theorem c4_twitter_quirk_witness :
    (ucTw4.netloc = "twitter.com"
     ∧ cacheLookup initSt "twitter.com" (.vStr (videoIdOf ucTw4.path)) = none
     ∧ mockTw (geturl ucTw4) = .ok (.flat twRaw)
     ∧ alGet twRaw "uploader_id" = some (.vStr "abc")
     ∧ alGet twRaw "title" = some (.vStr "hello")
     ∧ fetch_ytdlp mockTw initSt ucTw4 = .ok (.record c4Rec, c4St1))
    ∧ c4Rec.uploader = .vStr "abc"
    ∧ c4Rec.title = .vStr ("X post by abc (" ++ hash_str "hello" ++ ")") := by
  have h1 : ucTw4.netloc = "twitter.com" := by decide
  have h2 : cacheLookup initSt "twitter.com" (.vStr (videoIdOf ucTw4.path)) = none := by decide
  have h3 : mockTw (geturl ucTw4) = .ok (.flat twRaw) := rfl
  have h4 : alGet twRaw "uploader_id" = some (.vStr "abc") := by decide
  have h5 : alGet twRaw "title" = some (.vStr "hello") := by decide
  have h6 : fetch_ytdlp mockTw initSt ucTw4 = .ok (.record c4Rec, c4St1) := by decide
  have hc := c4_twitter_quirk mockTw initSt ucTw4 twRaw "abc" "hello" c4Rec c4St1
    h1 h2 h3 h4 h5 h6
  exact ⟨⟨h1, h2, h3, h4, h5, h6⟩, hc.1, hc.2⟩
theorem mk_data (s : String) : String.mk s.toList = s := by
  cases s
  rfl

theorem toList_append (s t : String) : (s ++ t).toList = s.toList ++ t.toList := rfl

theorem takeWhile_append_all {pred : Char → Bool} {xs ys : List Char}
    (hxs : ∀ c ∈ xs, pred c = true) :
    (xs ++ ys).takeWhile pred = xs ++ ys.takeWhile pred := by
  induction xs with
  | nil => rfl
  | cons c rest ih =>
    have hc : pred c = true := hxs c (List.mem_cons_self _ _)
    simp only [List.cons_append, List.takeWhile_cons, hc, if_true]
    rw [ih (fun c hm => hxs c (List.mem_cons_of_mem _ hm))]

theorem dropWhile_append_all {pred : Char → Bool} {xs ys : List Char}
    (hxs : ∀ c ∈ xs, pred c = true) :
    (xs ++ ys).dropWhile pred = ys.dropWhile pred := by
  induction xs with
  | nil => rfl
  | cons c rest ih =>
    have hc : pred c = true := hxs c (List.mem_cons_self _ _)
    simp only [List.cons_append, List.dropWhile_cons, hc, if_true]
    exact ih (fun c hm => hxs c (List.mem_cons_of_mem _ hm))

theorem findSchemeSplit_twitter (pcs : List Char) :
    findSchemeSplit ("https://twitter.com".toList ++ pcs)
      = some ("https".toList, "twitter.com".toList ++ pcs) := rfl

theorem not_mem_of_contains_false {c : Char} {l : List Char}
    (h : l.contains c = false) : c ∉ l := by
  intro hm
  have h2 : l.contains c = true := by
    simpa [List.contains] using List.elem_iff.2 hm
  rw [h2] at h
  cases h

theorem toList_eq_nil {p : String} (h : p.toList = []) : p = "" := by
  have := mk_data p
  rw [h] at this
  exact this.symm

theorem urlparse_twitter_path {p : String}
    (hp : p.toList = [] ∨ p.toList.head? = some '/')
    (hq : p.toList.contains '?' = false) :
    urlparse ("https://twitter.com" ++ p) = ⟨"https", "twitter.com", p, ""⟩ := by
  have hnm : ('?' : Char) ∉ p.toList := not_mem_of_contains_false hq
  have hfss : findSchemeSplit (("https://twitter.com" ++ p).toList)
      = some ("https".toList, "twitter.com".toList ++ p.toList) := rfl
  have hpq : ∀ c ∈ p.toList, (c != '?') = true := by
    intro c hm
    have : c ≠ '?' := fun hc => hnm (hc ▸ hm)
    simpa using this
  unfold urlparse
  rw [hfss]
  dsimp only [splitNetloc, splitPathQuery]
  have hpred : ∀ c ∈ "twitter.com".toList, (!(c == '/' || c == '?')) = true := by decide
  rw [takeWhile_append_all hpred, dropWhile_append_all hpred]
  rcases hp with hnil | hhead
  · have hpe : p = "" := toList_eq_nil hnil
    subst hpe
    rfl
  · obtain ⟨c, rest, hcons⟩ : ∃ c rest, p.toList = c :: rest := by
      cases hl : p.toList with
      | nil => rw [hl] at hhead; cases hhead
      | cons c rest => exact ⟨c, rest, rfl⟩
    have hc : c = '/' := by
      rw [hcons] at hhead
      simpa using hhead
    subst hc
    rw [hcons]
    have ht1 : List.takeWhile (fun c => !(c == '/' || c == '?')) ('/' :: rest) = [] := rfl
    have hd1 : List.dropWhile (fun c => !(c == '/' || c == '?')) ('/' :: rest) = '/' :: rest := rfl
    rw [ht1, hd1]
    have hrq : ∀ c ∈ '/' :: rest, (c != '?') = true := by
      rw [← hcons]
      exact hpq
    have ht2 : List.takeWhile (fun c => c != '?') ('/' :: rest) = '/' :: rest := by
      have := @takeWhile_append_all _ _ ([] : List Char) hrq
      simpa using this
    have hd2 : List.dropWhile (fun c => c != '?') ('/' :: rest) = [] := by
      have := @dropWhile_append_all _ _ ([] : List Char) hrq
      simpa using this
    rw [ht2, hd2]
    simp only [List.append_nil, List.drop_nil]
    rw [← hcons]
    simp only [mk_data]

theorem notEmpty_https (p : String) : ("https://twitter.com" ++ p).isEmpty = false := by
  rw [Bool.eq_false_iff]
  intro h
  have he := (String.isEmpty_iff _).1 h
  have hd : ("https://twitter.com".data ++ p.data) = ([] : List Char) :=
    congrArg String.data he
  simp at hd

theorem alRemove_alSet_of_none {κ α : Type} [DecidableEq κ] {l : List (κ × α)}
    {k : κ} {v : α} (h : alGet l k = none) : alRemove (alSet l k v) k = l := by
  induction l with
  | nil => simp [alSet, alRemove]
  | cons p rest ih =>
    obtain ⟨pk, pv⟩ := p
    by_cases hp : pk = k
    · subst hp
      simp [alGet] at h
    · simp only [alGet, if_neg hp] at h
      simp [alSet, alRemove, hp, ih h]

theorem preprocessAux_twitter {f : Nat} {uc : ParseResult}
    (hsite : siteOf uc.netloc = .ok "twitter") :
    preprocessAux (f + 1) uc
      = (if pyEndsWith "/video".toList (pySlice0 (geturl uc) (pyRfind '/' (geturl uc))).toList
         then
           match pyInt (pySliceFrom (geturl uc) (pyRfind '/' (geturl uc) + 1)).toList with
           | .error e => .error e
           | .ok k =>
             if k ≠ 1 then
               .ok [("channel", .cStr "uploader_id"), ("title", .cFun twitterTitle),
                    ("duration", .cNone)]
             else .ok [("channel", .cStr "uploader_id"), ("title", .cFun twitterTitle)]
         else .ok [("channel", .cStr "uploader_id"), ("title", .cFun twitterTitle)]) := by
  unfold preprocessAux
  rw [hsite]
  rfl

theorem twitter_changes_no_url {f : Nat} {uc : ParseResult} {ch : Changes}
    (hsite : siteOf uc.netloc = .ok "twitter")
    (h : preprocessAux (f + 1) uc = .ok ch) :
    alGet ch "url" = none := by
  rw [preprocessAux_twitter hsite] at h
  repeat' split at h
  all_goals first
    | (simp at h; done)
    | (simp only [Except.ok.injEq] at h; subst h; rfl)

theorem alSet_isEmpty {κ α : Type} [DecidableEq κ] (l : List (κ × α)) (k : κ) (v : α) :
    (alSet l k v).isEmpty = false := by
  cases l with
  | nil => rfl
  | cons p rest =>
    obtain ⟨pk, pv⟩ := p
    by_cases hp : pk = k <;> simp [alSet, hp]

/-- Claim C5: an x.com URL is fetched via the rewritten twitter.com URL
with the same path and receives exactly the twitter.com corrections: for
every scheme, path and query, with both cache slots for the path's id
empty, `fetch_ytdlp` on the x.com URL returns literally the same result
(record and final state) as on its twitter.com equivalent (same path,
empty query).  Paths are genuine parsed paths: fragment-free and without
`?`, starting with `/` or empty. -/
theorem c5_xcom_equiv (ydl : String → Except Unit YdlInfo) (st : St) (sch p q : String)
    (innerx innert : List (PyVal × Record))
    (hp : p.toList = [] ∨ p.toList.head? = some '/')
    (hq : p.toList.contains '?' = false)
    (hox : alGet st.ytdlp_cache "x.com" = some innerx)
    (hix : alGet innerx (.vStr (videoIdOf p)) = none)
    (hot : alGet st.ytdlp_cache "twitter.com" = some innert)
    (hit : alGet innert (.vStr (videoIdOf p)) = none) :
    fetch_ytdlp ydl st ⟨sch, "x.com", p, q⟩
      = fetch_ytdlp ydl st ⟨"https", "twitter.com", p, ""⟩ := by
  have hsT : siteOf (⟨"https", "twitter.com", p, ""⟩ : ParseResult).netloc = .ok "twitter" := rfl
  have hup := urlparse_twitter_path hp hq
  have hget : geturl ⟨"https", "twitter.com", p, ""⟩ = "https://twitter.com" ++ p := by
    have h0 : geturl ⟨"https", "twitter.com", p, ""⟩ = ("https://twitter.com" ++ p) ++ "" := rfl
    rw [h0, String.append_empty]
  have hLpre1 : preprocess ⟨sch, "x.com", p, q⟩
      = (match preprocessAux 1 (urlparse ("https://twitter.com" ++ p)) with
         | .error e => .error e
         | .ok changes => .ok (alSet changes "url" (.cStr ("https://twitter.com" ++ p)))) := rfl
  rw [hup] at hLpre1
  have hE1 : preprocessAux 1 (⟨"https", "twitter.com", p, ""⟩ : ParseResult)
      = preprocess (⟨"https", "twitter.com", p, ""⟩ : ParseResult) := by
    rw [preprocessAux_twitter (f := 0) hsT]
    rw [show preprocess (⟨"https", "twitter.com", p, ""⟩ : ParseResult)
        = preprocessAux (1 + 1) (⟨"https", "twitter.com", p, ""⟩ : ParseResult) from rfl]
    rw [preprocessAux_twitter (f := 1) hsT]
  rw [hE1] at hLpre1
  unfold fetch_ytdlp
  dsimp only
  rw [show normalizeNetloc "x.com" = "x.com" from rfl,
      show normalizeNetloc "twitter.com" = "twitter.com" from rfl]
  rw [if_neg (by decide : ¬ ("x.com" : String) ∉ accepted_domains),
      if_neg (by decide : ¬ ("twitter.com" : String) ∉ accepted_domains)]
  rw [hox, hot]
  dsimp only
  rw [hix, hit]
  dsimp only
  rw [hLpre1]
  cases hEv : preprocess (⟨"https", "twitter.com", p, ""⟩ : ParseResult) with
  | error e => rfl
  | ok ch =>
    dsimp only
    have hchurl : alGet ch "url" = none := by
      refine twitter_changes_no_url (f := 1) hsT ?_
      rw [show preprocessAux (1 + 1) (⟨"https", "twitter.com", p, ""⟩ : ParseResult)
          = preprocess (⟨"https", "twitter.com", p, ""⟩ : ParseResult) from rfl]
      exact hEv
    have hpopL : popUrl (geturl ⟨sch, "x.com", p, q⟩)
        (alSet ch "url" (.cStr ("https://twitter.com" ++ p)))
        = .ok ("https://twitter.com" ++ p, ch) := by
      unfold popUrl
      rw [alGet_alSet_self]
      dsimp only [cvTruthy]
      rw [alSet_isEmpty, notEmpty_https]
      simp only [Bool.not_false, Bool.and_self, if_true]
      rw [alRemove_alSet_of_none hchurl]
    have hpopR : popUrl (geturl ⟨"https", "twitter.com", p, ""⟩) ch
        = .ok (geturl ⟨"https", "twitter.com", p, ""⟩, ch) := by
      unfold popUrl
      rw [hchurl]
      simp
    rw [hpopL, hpopR]
    dsimp only
    rw [hget]

/-- Witness for C5: the equivalence applied at `https://x.com/u/status/123`
versus `https://twitter.com/u/status/123` over the initial state. -/
theorem c5_xcom_equiv_witness :
    (("/u/status/123" : String).toList.head? = some '/'
     ∧ ("/u/status/123" : String).toList.contains '?' = false
     ∧ alGet initSt.ytdlp_cache "x.com" = some []
     ∧ alGet initSt.ytdlp_cache "twitter.com" = some [])
    ∧ fetch_ytdlp mockX1 initSt ⟨"https", "x.com", "/u/status/123", ""⟩
        = fetch_ytdlp mockX1 initSt ⟨"https", "twitter.com", "/u/status/123", ""⟩ := by
  have h1 : ("/u/status/123" : String).toList.head? = some '/' := by decide
  have h2 : ("/u/status/123" : String).toList.contains '?' = false := by decide
  have h3 : alGet initSt.ytdlp_cache "x.com" = some [] := by decide
  have h4 : alGet initSt.ytdlp_cache "twitter.com" = some [] := by decide
  refine ⟨⟨h1, h2, h3, h4⟩, ?_⟩
  exact c5_xcom_equiv mockX1 initSt "https" "/u/status/123" "" [] []
    (Or.inr h1) h2 h3 rfl h4 rfl
